import Mathlib

/-!
Shallow embedding of the acr-cli purge/archive/unarchive engine
(`cmd/acr/purge.go`, `cmd/acr/unarchive.go`, `cmd/api/acrsdk.go`).

The embedding models the current revision of the code: `PurgeTags`,
`ParseDuration`, `Untag`, `PurgeDanglingManifests`, `HandleManifest`
from purge.go and the `RunE` body of `newUnarchiveCmd` from unarchive.go.
Registry calls are an oracle (`Env`); manifest/tag metadata annotations
are the only registry state mutated and read back within a run, so they
are carried as an explicit store (`RegState`).  Every outward call is
recorded as an `Event`; Go runtime panics (nil dereference, slice out of
range, index out of range) are a distinguished `Outcome`.  Goroutine
pages are serialized at the `wg.Wait()` barrier: the coordinator launches
tasks while scanning a page, waits for all of them, then drains the
error channel; the model executes the launched tasks in launch order at
the barrier, which is one admissible interleaving of the Go schedule.
-/

namespace AcrCli

abbrev Err := String

/-- Result of running a piece of the program: normal value, Go error
return, Go runtime panic, or exhaustion of the loop fuel of the model. -/
inductive Outcome (α : Type) where
  | ok : α → Outcome α
  | err : Err → Outcome α
  | panicked : String → Outcome α
  | gas : Outcome α
deriving Repr, DecidableEq

/-- One element of acr.TagAttributesBase as purge.go reads it: the three
pointer fields the code dereferences unconditionally. -/
structure TagEntry where
  name : String
  digest : String
  lastUpdateTime : String
deriving Repr, DecidableEq

/-- acr.TagAttributeList: the Tags pointer may be nil. -/
structure TagAttributeList where
  tags : Option (List TagEntry)
deriving Repr, DecidableEq

/-- acr.ManifestAttributesBase: Digest is dereferenced unconditionally,
Tags is compared against nil. -/
structure ManifestEntry where
  digest : String
  tags : Option (List String)
deriving Repr, DecidableEq

/-- acr.ManifestAttributeList: the Manifests pointer may be nil. -/
structure ManifestAttributeList where
  manifests : Option (List ManifestEntry)
deriving Repr, DecidableEq

/-- api.LayerMetadata. -/
structure LayerMetadata where
  mediaType : Option String
  size : Option Int
  digest : Option String
deriving Repr, DecidableEq

/-- api.ManifestV2. -/
structure ManifestV2 where
  schemaVersion : Option Int
  mediaType : Option String
  config : Option LayerMetadata
  layers : Option (List LayerMetadata)
deriving Repr, DecidableEq

/-- api.AcrTags: one archived tag entry of the archive record. -/
structure AcrTags where
  name : String
  archiveTime : String
deriving Repr, DecidableEq

/-- api.AcrManifestMetadata: the archive record JSON document. -/
structure AcrManifestMetadata where
  digest : String
  originalRepo : String
  lastUpdateTime : String
  tags : List AcrTags
deriving Repr, DecidableEq

/-- The part of acr.TagAttributesBase unarchive.go reads through
`(*tagInfo.Tag).Digest`. -/
structure TagAttr where
  digest : Option String
deriving Repr, DecidableEq

/-- acr.TagAttributes: the Tag pointer may be nil. -/
structure TagAttributes where
  tag : Option TagAttr
deriving Repr, DecidableEq

/-- Registry metadata annotations: the only registry state written and
then read back inside a run.  Keys are (repository, reference). -/
structure RegState where
  manifestMeta : List ((String × String) × String)
  tagMeta : List ((String × String) × String)
deriving Repr, DecidableEq

def lookupMeta (l : List ((String × String) × String)) (repo ref : String) :
    Option String :=
  match l with
  | [] => none
  | (k, v) :: rest =>
    if k = (repo, ref) then some v else lookupMeta rest repo ref

def setMeta (l : List ((String × String) × String)) (repo ref v : String) :
    List ((String × String) × String) :=
  match l with
  | [] => [((repo, ref), v)]
  | (k, w) :: rest =>
    if k = (repo, ref) then (k, v) :: rest else (k, w) :: setMeta rest repo ref v

def countKey (l : List ((String × String) × String)) (repo ref : String) : Nat :=
  match l with
  | [] => 0
  | (k, _) :: rest =>
    (if k = (repo, ref) then 1 else 0) + countKey rest repo ref

/-- Outward-visible calls of a run. Reads of metadata that the model
keeps in `RegState` are represented by the store lookup itself except
for `AcrGetTagMetadata`, whose key is the reconstructed archive tag
name and is therefore recorded. -/
inductive Event where
  | listTags (repo last : String)
  | listManifests (repo last : String)
  | deleteTag (repo tag : String)
  | deleteManifest (repo digest : String)
  | updateManifestMeta (repo digest key value : String)
  | updateTagMeta (repo tag key value : String)
  | getTagMeta (repo tag key : String)
  | crossMount (destRepo blobDigest fromRepo : String)
  | putManifestStr (repo tag body : String)
  | putManifestV2 (repo tag : String) (m : ManifestV2)
  | printLine (line : String)
deriving Repr, DecidableEq

/-- The registry oracle: outcome of every external call the engine makes,
plus the ambient clock, clock rendering, RFC3339 parsing and the regexp
and JSON collaborators, all black boxes to the core. -/
structure Env where
  now : Int
  timeToString : Int → String
  parseTime : String → Except Err Int
  regexpCompile : String → Option Err
  matchString : String → String → Bool
  acrListTags : String → String → Except Err (Option TagAttributeList)
  acrDeleteTag : String → String → Except Err Unit
  acrListManifests : String → String → Except Err (Option ManifestAttributeList)
  deleteManifest : String → String → Except Err Unit
  updateManifestMetaErr : String → String → String → Option Err
  updateTagMetaErr : String → String → String → Option Err
  getManifestStr : String → String → Except Err String
  getManifestV2 : String → String → Except Err (Option ManifestV2)
  marshalMetadata : AcrManifestMetadata → Except Err String
  unmarshalMetadata : String → Except Err AcrManifestMetadata
  unmarshalManifestV2 : String → Except Err (Option ManifestV2)
  crossMount : String → String → String → Except Err Unit
  putManifestStr : String → String → String → Except Err Unit
  putManifestV2 : String → String → ManifestV2 → Except Err Unit
  acrGetTagAttributes : String → String → Except Err TagAttributes

/-- State-and-trace computations. -/
def M (α : Type) : Type := RegState → Outcome α × RegState × List Event

instance : Monad M where
  pure a := fun s => (Outcome.ok a, s, [])
  bind x f := fun s =>
    match x s with
    | (Outcome.ok a, s1, tr1) =>
      match f a s1 with
      | (o, s2, tr2) => (o, s2, tr1 ++ tr2)
    | (Outcome.err e, s1, tr1) => (Outcome.err e, s1, tr1)
    | (Outcome.panicked m, s1, tr1) => (Outcome.panicked m, s1, tr1)
    | (Outcome.gas, s1, tr1) => (Outcome.gas, s1, tr1)

def raise {α : Type} (e : Err) : M α := fun s => (Outcome.err e, s, [])

def panicM {α : Type} (msg : String) : M α := fun s => (Outcome.panicked msg, s, [])

def gasM {α : Type} : M α := fun s => (Outcome.gas, s, [])

def emit (ev : Event) : M Unit := fun s => (Outcome.ok (), s, [ev])

def emitAll (evs : List Event) : M Unit := fun s => (Outcome.ok (), s, evs)

def getState : M RegState := fun s => (Outcome.ok s, s, [])

def setState (s' : RegState) : M Unit := fun _ => (Outcome.ok (), s', [])

def nilDerefMsg : String := "runtime error: invalid memory address or nil pointer dereference"

def outOfRangeMsg : String := "runtime error: index out of range"

def sliceRangeMsg : String := "runtime error: slice bounds out of range"

def emptyStr : String := ""

/-! ### ParseDuration (purge.go lines 326-349)

`fmt.Sscanf(ago, "%dd%s", ...)`: `%d` skips leading whitespace, reads an
optional sign and at least one digit and assigns its operand even when a
later stage of the format fails; the literal `d` must match the next
input character; `%s` skips whitespace and reads a maximal nonempty run
of non-whitespace characters.  `time.ParseDuration` is embedded below;
its fractional component uses exact integer division where Go uses
float64 multiplication, which agrees on inputs without fractions. -/

def dotChar : Char := '.'

def dChar : Char := 'd'

def skipSpacesL (cs : List Char) : List Char := cs.dropWhile Char.isWhitespace

def takeDigits (cs : List Char) : List Char × List Char :=
  (cs.takeWhile Char.isDigit, cs.dropWhile Char.isDigit)

def digitsToNat (ds : List Char) : Nat :=
  ds.foldl (fun a c => a * 10 + (c.toNat - 48)) 0

/-- The `%d` verb of Sscanf: whitespace skip, optional sign, digits. -/
def scanGoInt (cs : List Char) : Option (Int × List Char) :=
  let cs1 := skipSpacesL cs
  let (neg, cs2) :=
    match cs1 with
    | c :: rest =>
      if c = '-' then (true, rest)
      else if c = '+' then (false, rest)
      else (false, cs1)
    | [] => (false, cs1)
  match takeDigits cs2 with
  | ([], _) => none
  | (ds, rest) =>
    let n : Int := Int.ofNat (digitsToNat ds)
    some (if neg then -n else n, rest)

/-- The `%s` verb of Sscanf: whitespace skip, maximal nonempty
non-whitespace run. -/
def scanToken (cs : List Char) : Option (String × List Char) :=
  let cs1 := skipSpacesL cs
  match cs1.takeWhile (fun c => ¬ c.isWhitespace) with
  | [] => none
  | tok => some (String.mk tok, cs1.dropWhile (fun c => ¬ c.isWhitespace))

def scanTokenStr (s : String) : Option String :=
  match scanToken s.data with
  | none => none
  | some (t, _) => some t

/-- `fmt.Sscanf(ago, "%dd%s", &days, &durationString)` followed, on
failure, by the fallback `fmt.Sscanf(ago, "%dd", &days)`: `days` keeps
whatever the `%d` stage assigned (zero if `%d` itself failed) and
`durationString` is set only when all three stages succeed. -/
def goParseDd (ago : String) : Int × Option String :=
  match scanGoInt ago.data with
  | none => (0, none)
  | some (n, rest) =>
    match rest with
    | [] => (n, none)
    | c :: rest2 =>
      if c = dChar then
        match scanToken rest2 with
        | none => (n, none)
        | some (s, _) => (n, some s)
      else (n, none)

def invalidDurationMsg : String := "time: invalid duration"

def missingUnitMsg : String := "time: missing unit in duration"

def unknownUnitMsg : String := "time: unknown unit in duration"

def scanEOFMsg : String := "unexpected EOF"

def nsStr : String := "ns"
def usStr : String := "us"
def usMicroStr : String := "µs"
def usMuStr : String := "μs"
def msStr : String := "ms"
def sStr : String := "s"
def mStr : String := "m"
def hStr : String := "h"

def hourNs : Int := 3600000000000

def unitMapLookup (u : String) : Option Int :=
  if u = nsStr then some 1
  else if u = usStr then some 1000
  else if u = usMicroStr then some 1000
  else if u = usMuStr then some 1000
  else if u = msStr then some 1000000
  else if u = sStr then some 1000000000
  else if u = mStr then some 60000000000
  else if u = hStr then some hourNs
  else none

/-- The optional fractional part `.ddd`: value, scale, whether any digit
was consumed, rest. -/
def fracPart (cs : List Char) : Nat × Nat × Bool × List Char :=
  match cs with
  | c :: rest =>
    if c = dotChar then
      let ds := rest.takeWhile Char.isDigit
      (digitsToNat ds, 10 ^ ds.length, !ds.isEmpty, rest.dropWhile Char.isDigit)
    else (0, 1, false, cs)
  | [] => (0, 1, false, [])

/-- The main loop of time.ParseDuration over the sign-stripped string. -/
def durLoop : Nat → List Char → Int → Except Err Int
  | 0, _, _ => Except.error invalidDurationMsg
  | Nat.succ fuel, cs, acc =>
    match cs with
    | [] => Except.ok acc
    | c :: _ =>
      if c = dotChar || c.isDigit then
        let (ds, rest1) := takeDigits cs
        let v : Int := Int.ofNat (digitsToNat ds)
        let pre : Bool := !ds.isEmpty
        let (f, scale, post, rest2) := fracPart rest1
        if !pre && !post then Except.error invalidDurationMsg
        else
          let u := rest2.takeWhile (fun ch => !(ch = dotChar || ch.isDigit))
          let rest3 := rest2.dropWhile (fun ch => !(ch = dotChar || ch.isDigit))
          if u.isEmpty then Except.error missingUnitMsg
          else
            match unitMapLookup (String.mk u) with
            | none => Except.error unknownUnitMsg
            | some unit =>
              let v2 := v * unit +
                (if 0 < f then (Int.ofNat f * unit) / (Int.ofNat scale) else 0)
              durLoop fuel rest3 (acc + v2)
      else Except.error invalidDurationMsg

/-- time.ParseDuration, over Int nanoseconds (overflow not modelled). -/
def goTimeParseDuration (s : String) : Except Err Int :=
  let cs := s.data
  let (neg, cs1) :=
    match cs with
    | c :: rest =>
      if c = '-' then (true, rest)
      else if c = '+' then (false, rest)
      else (false, cs)
    | [] => (false, cs)
  if cs1 = ['0'] then Except.ok 0
  else if cs1.isEmpty then Except.error invalidDurationMsg
  else
    match durLoop (cs1.length + 1) cs1 0 with
    | Except.error e => Except.error e
    | Except.ok d => Except.ok (if neg then -d else d)

/-- The tail of ParseDuration: days are converted to hours, the optional
sub-day duration added, and the total negated. -/
def parseDurationFinish (days : Int) (durationString : String) : Except Err Int :=
  let dur := days * 24 * hourNs
  if durationString.length > 0 then
    match goTimeParseDuration durationString with
    | Except.error e => Except.error e
    | Except.ok d => Except.ok (-(dur + d))
  else Except.ok (-dur)

/-- ParseDuration (purge.go): time.ParseDuration with days added. -/
def ParseDuration (ago : String) : Except Err Int :=
  if ago.data.contains dChar then
    let days := (goParseDd ago).1
    let durationString := ((goParseDd ago).2).getD emptyStr
    parseDurationFinish days durationString
  else
    match scanTokenStr ago with
    | none => Except.error scanEOFMsg
    | some ds => parseDurationFinish 0 ds

/-- Decomposition of a successfully parsed age expression into its day
count and sub-day nanosecond duration, following the spec sentence
"every successful result is the negation of (days × 24h + sub-day
duration)". -/
def durationParts (ago : String) : Option (Int × Int) :=
  if ago.data.contains dChar then
    let days := (goParseDd ago).1
    let ds := ((goParseDd ago).2).getD emptyStr
    if ds.length > 0 then
      match goTimeParseDuration ds with
      | Except.error _ => none
      | Except.ok d => some (days, d)
    else some (days, 0)
  else
    match scanTokenStr ago with
    | none => none
    | some ds =>
      if ds.length > 0 then
        match goTimeParseDuration ds with
        | Except.error _ => none
        | Except.ok d => some (0, d)
      else some (0, 0)

/-! ### Shared string helpers -/

/-- Go string slicing `s[lo:hi]`: defined when `lo ≤ hi ≤ len(s)`,
a runtime panic otherwise.  Digests are ASCII, so byte indices and
character indices coincide. -/
def goSliceStr (s : String) (lo hi : Nat) : Option String :=
  if lo ≤ hi ∧ hi ≤ s.data.length then
    some (String.mk ((s.data.drop lo).take (hi - lo)))
  else none

/-- strings.HasPrefix. -/
def goHasPrefix (s pre : String) : Bool :=
  s.data.take pre.data.length = pre.data

def sha256Bare : String := "sha256"

def sha256ColonLen : Nat := 7

def acrarchiveinfoKey : String := "acrarchiveinfo"

/-- The synthesized archive tag name `repoName + digest[7:15]`, the
expression shared verbatim by purge.go line 447 and unarchive.go
line 37; `none` when the slice panics. -/
def synthTag (repoName digest : String) : Option String :=
  match goSliceStr digest sha256ColonLen (sha256ColonLen + 8) with
  | none => none
  | some h8 => some (repoName ++ h8)

def fmtTagLine (loginURL repoName tag : String) : String :=
  loginURL ++ "/" ++ repoName ++ ":" ++ tag

def fmtManifestLine (loginURL repoName digest : String) : String :=
  loginURL ++ "/" ++ repoName ++ "@" ++ digest

def errMetaNotFound : Err := "metadata not found"

def errRefNotDigest : Err := "reference has to be a digest"

/-! ### PurgeTags (purge.go lines 230-323) and Untag (lines 352-366) -/

/-- One Untag goroutine (purge.go lines 352-366): attempt the tag
delete; an error goes to the error channel, a success prints the
audit line. -/
def runUntag (env : Env) (loginURL repoName tag : String) :
    List Event × Option Err :=
  match env.acrDeleteTag repoName tag with
  | Except.error e => ([Event.deleteTag repoName tag], some e)
  | Except.ok _ =>
    ([Event.deleteTag repoName tag,
      Event.printLine (fmtTagLine loginURL repoName tag)], none)

/-- All Untag goroutines of one page, executed in launch order at the
`wg.Wait()` barrier; errors are collected in channel order. -/
def runUntagTasks (env : Env) (loginURL repoName : String) :
    List String → List Event × List Err
  | [] => ([], [])
  | n :: ns =>
    let (evs, e) := runUntag env loginURL repoName n
    let (evs2, errs) := runUntagTasks env loginURL repoName ns
    (evs ++ evs2, (match e with | some x => [x] | none => []) ++ errs)

/-- The archive-repository branch of PurgeTags (purge.go lines 267-304):
fetch the archive record of the tag's digest from the source repository,
seed a fresh one-entry record when the fetch fails, otherwise append the
new entry, and persist the marshalled record back.  The archive time
written is `timeToCompare.String()`. -/
def archiveTagMeta (env : Env) (repoName : String) (cutoff : Int)
    (tag : TagEntry) : M Unit := do
  let st ← getState
  let tagMetadata : AcrTags :=
    { name := tag.name, archiveTime := env.timeToString cutoff }
  match lookupMeta st.manifestMeta repoName tag.digest with
  | none =>
    let metadataObject : AcrManifestMetadata :=
      { digest := tag.digest, originalRepo := repoName,
        lastUpdateTime := emptyStr, tags := [tagMetadata] }
    match env.marshalMetadata metadataObject with
    | Except.error e => raise e
    | Except.ok metadataBytes => do
      emit (Event.updateManifestMeta repoName tag.digest acrarchiveinfoKey metadataBytes)
      match env.updateManifestMetaErr repoName tag.digest metadataBytes with
      | some e => raise e
      | none =>
        setState { st with
          manifestMeta := setMeta st.manifestMeta repoName tag.digest metadataBytes }
  | some stored =>
    match env.unmarshalMetadata stored with
    | Except.error e => raise e
    | Except.ok metadataObject =>
      let metadataObject2 :=
        { metadataObject with tags := metadataObject.tags ++ [tagMetadata] }
      match env.marshalMetadata metadataObject2 with
      | Except.error e => raise e
      | Except.ok metadataBytes => do
        emit (Event.updateManifestMeta repoName tag.digest acrarchiveinfoKey metadataBytes)
        match env.updateManifestMetaErr repoName tag.digest metadataBytes with
        | some e => raise e
        | none =>
          setState { st with
            manifestMeta := setMeta st.manifestMeta repoName tag.digest metadataBytes }

/-- Selection of one enumerated tag (purge.go lines 253-307): the filter
is consulted only when nonempty, the last-update instant must parse, and
deletion requires it to lie strictly before the cutoff; when an archive
repository is configured the archive record is maintained before the
Untag goroutine is launched.  Returns the tag name to untag, if any. -/
def processTag (env : Env) (repoName filter archive : String) (cutoff : Int)
    (tag : TagEntry) : M (Option String) :=
  if filter.length > 0 && !env.matchString filter tag.name then
    pure none
  else
    match env.parseTime tag.lastUpdateTime with
    | Except.error e => raise e
    | Except.ok lastUpdateTime =>
      if lastUpdateTime < cutoff then do
        if archive.length > 0 then
          archiveTagMeta env repoName cutoff tag
        pure (some tag.name)
      else
        pure none

/-- Selection pass over one page of tags, in page order. -/
def processTags (env : Env) (repoName filter archive : String) (cutoff : Int) :
    List TagEntry → M (List String)
  | [] => pure []
  | t :: ts => do
    let r ← processTag env repoName filter archive cutoff t
    let rest ← processTags env repoName filter archive cutoff ts
    pure ((match r with | some n => [n] | none => []) ++ rest)

/-- The page loop of PurgeTags: process the page, wait for the page's
Untag goroutines, drain the error channel, then fetch the next page
keyed by the page's last tag name.  An empty non-nil page reaches
`tags[len(tags)-1]` and panics. -/
def purgeTagsLoop (env : Env) (loginURL repoName filter archive : String)
    (cutoff : Int) : Nat → Option TagAttributeList → M Unit
  | 0, _ => gasM
  | Nat.succ _, none => pure ()
  | Nat.succ fuel, some resultTags =>
    match resultTags.tags with
    | none => pure ()
    | some tags => do
      let launches ← processTags env repoName filter archive cutoff tags
      let (evs, errs) := runUntagTasks env loginURL repoName launches
      emitAll evs
      match errs with
      | e :: _ => raise e
      | [] =>
        match tags.getLast? with
        | none => panicM outOfRangeMsg
        | some tlast => do
          emit (Event.listTags repoName tlast.name)
          match env.acrListTags repoName tlast.name with
          | Except.error e => raise e
          | Except.ok next =>
            purgeTagsLoop env loginURL repoName filter archive cutoff fuel next

/-- PurgeTags (purge.go lines 230-323). -/
def PurgeTags (env : Env) (loginURL repoName ago filter archive : String)
    (fuel : Nat) : M Unit :=
  match ParseDuration ago with
  | Except.error e => raise e
  | Except.ok agoDuration =>
    let timeToCompare := env.now + agoDuration
    match env.regexpCompile filter with
    | some e => raise e
    | none => do
      emit (Event.listTags repoName emptyStr)
      match env.acrListTags repoName emptyStr with
      | Except.error e => raise e
      | Except.ok resultTags =>
        purgeTagsLoop env loginURL repoName filter archive timeToCompare fuel resultTags

/-! ### PurgeDanglingManifests (purge.go lines 369-400) and
HandleManifest (lines 403-466) -/

/-- Control-flow status of the archive attempt inside HandleManifest:
`proceed` when no archiving happened (no archive repository, or the
metadata fetch failed, purge.go line 414 comment), `archived` when all
archive steps succeeded, `failed` when a later archive step errored.
`proceed` and `archived` both fall through to the manifest delete. -/
inductive ArchStatus where
  | proceed : ArchStatus
  | archived : ArchStatus
  | failed : Err → ArchStatus
deriving Repr, DecidableEq

/-- The cross-repository mounts of the manifest's layers (purge.go
lines 440-446). -/
def mountLayers (env : Env) (archive repoName : String) :
    List LayerMetadata → M (Option Err)
  | [] => pure none
  | layer :: layers =>
    match layer.digest with
    | none => panicM nilDerefMsg
    | some layerDigest => do
      emit (Event.crossMount archive layerDigest repoName)
      match env.crossMount archive layerDigest repoName with
      | Except.error e => pure (some e)
      | Except.ok _ => mountLayers env archive repoName layers

/-- The archive branch of HandleManifest (purge.go lines 412-458):
fetch the archive record, decode it, fetch the manifest body, mount the
config and layer blobs into the archive repository, push the body under
the synthesized tag and attach the record to that tag. -/
def archivePart (env : Env) (repoName archive : String)
    (manifest : ManifestEntry) : M ArchStatus :=
  if archive.length > 0 then do
    let st ← getState
    match lookupMeta st.manifestMeta repoName manifest.digest with
    | none => pure ArchStatus.proceed
    | some manifestMetadata =>
      match env.unmarshalMetadata manifestMetadata with
      | Except.error e => pure (ArchStatus.failed e)
      | Except.ok _metadataObject =>
        match env.getManifestStr repoName manifest.digest with
        | Except.error e => pure (ArchStatus.failed e)
        | Except.ok manifestString =>
          match env.unmarshalManifestV2 manifestString with
          | Except.error e => pure (ArchStatus.failed e)
          | Except.ok manifestV2Ptr =>
            match manifestV2Ptr with
            | none => panicM nilDerefMsg
            | some manifestV2 =>
              match manifestV2.config with
              | none => panicM nilDerefMsg
              | some config =>
                match config.digest with
                | none => panicM nilDerefMsg
                | some configDigest => do
                  emit (Event.crossMount archive configDigest repoName)
                  match env.crossMount archive configDigest repoName with
                  | Except.error e => pure (ArchStatus.failed e)
                  | Except.ok _ =>
                    match manifestV2.layers with
                    | none => panicM nilDerefMsg
                    | some layers => do
                      let mountResult ← mountLayers env archive repoName layers
                      match mountResult with
                      | some e => pure (ArchStatus.failed e)
                      | none =>
                        match synthTag repoName manifest.digest with
                        | none => panicM sliceRangeMsg
                        | some newTagName => do
                          emit (Event.putManifestStr archive newTagName manifestString)
                          match env.putManifestStr archive newTagName manifestString with
                          | Except.error e => pure (ArchStatus.failed e)
                          | Except.ok _ => do
                            emit (Event.updateTagMeta archive newTagName
                              acrarchiveinfoKey manifestMetadata)
                            match env.updateTagMetaErr archive newTagName manifestMetadata with
                            | some e => pure (ArchStatus.failed e)
                            | none => do
                              let st2 ← getState
                              let tm := setMeta st2.tagMeta archive newTagName manifestMetadata
                              setState { st2 with tagMeta := tm }
                              pure ArchStatus.archived
  else
    pure ArchStatus.proceed

/-- One HandleManifest goroutine (purge.go lines 403-466): an error of a
late archive step goes to the error channel and stops the task; when the
archive branch did not fail, the manifest is deleted from the source
repository and the audit line printed. -/
def handleManifestTask (env : Env) (loginURL repoName archive : String)
    (manifest : ManifestEntry) : M (Option Err) := do
  let status ← archivePart env repoName archive manifest
  match status with
  | ArchStatus.failed e => pure (some e)
  | _ => do
    emit (Event.deleteManifest repoName manifest.digest)
    match env.deleteManifest repoName manifest.digest with
    | Except.error e => pure (some e)
    | Except.ok _ => do
      emit (Event.printLine (fmtManifestLine loginURL repoName manifest.digest))
      pure none

/-- All HandleManifest goroutines of one page, executed in launch order
at the `wg.Wait()` barrier; errors are collected in channel order. -/
def runHandleTasks (env : Env) (loginURL repoName archive : String) :
    List ManifestEntry → M (List Err)
  | [] => pure []
  | m :: ms => do
    let r ← handleManifestTask env loginURL repoName archive m
    let errs ← runHandleTasks env loginURL repoName archive ms
    pure ((match r with | some e => [e] | none => []) ++ errs)

/-- The manifests of a page launched by PurgeDanglingManifests: those
whose Tags pointer is nil (purge.go line 381). -/
def danglingOf (manifests : List ManifestEntry) : List ManifestEntry :=
  manifests.filter (fun m => m.tags.isNone)

/-- The page loop of PurgeDanglingManifests: launch HandleManifest for
every dangling manifest of the page, wait, drain the error channel, then
fetch the next page keyed by the page's last manifest digest.  An empty
non-nil page reaches `manifests[len(manifests)-1]` and panics. -/
def purgeDanglingLoop (env : Env) (loginURL repoName archive : String) :
    Nat → Option ManifestAttributeList → M Unit
  | 0, _ => gasM
  | Nat.succ _, none => pure ()
  | Nat.succ fuel, some resultManifests =>
    match resultManifests.manifests with
    | none => pure ()
    | some manifests => do
      let errs ← runHandleTasks env loginURL repoName archive (danglingOf manifests)
      match errs with
      | e :: _ => raise e
      | [] =>
        match manifests.getLast? with
        | none => panicM outOfRangeMsg
        | some mlast => do
          emit (Event.listManifests repoName mlast.digest)
          match env.acrListManifests repoName mlast.digest with
          | Except.error e => raise e
          | Except.ok next =>
            purgeDanglingLoop env loginURL repoName archive fuel next

/-- PurgeDanglingManifests (purge.go lines 369-400). -/
def PurgeDanglingManifests (env : Env) (loginURL repoName archive : String)
    (fuel : Nat) : M Unit := do
  emit (Event.listManifests repoName emptyStr)
  match env.acrListManifests repoName emptyStr with
  | Except.error e => raise e
  | Except.ok resultManifests =>
    purgeDanglingLoop env loginURL repoName archive fuel resultManifests

/-! ### Unarchive (unarchive.go lines 30-87) -/

/-- The cross-repository mounts of the archived manifest's layers back
into the destination repository (unarchive.go lines 56-61); an error
returns from the command. -/
def unarchiveMountLayers (env : Env) (repoName archive : String) :
    List LayerMetadata → M Unit
  | [] => pure ()
  | layer :: layers =>
    match layer.digest with
    | none => panicM nilDerefMsg
    | some layerDigest => do
      emit (Event.crossMount repoName layerDigest archive)
      match env.crossMount repoName layerDigest archive with
      | Except.error e => raise e
      | Except.ok _ => unarchiveMountLayers env repoName archive layers

/-- The per-recorded-tag pushes of Unarchive (unarchive.go lines 70-76). -/
def pushRecordedTags (env : Env) (repoName : String) (manifestV2 : ManifestV2) :
    List AcrTags → M Unit
  | [] => pure ()
  | t :: ts => do
    emit (Event.putManifestV2 repoName t.name manifestV2)
    match env.putManifestV2 repoName t.name manifestV2 with
    | Except.error e => raise e
    | Except.ok _ => do
      emit (Event.printLine t.name)
      pushRecordedTags env repoName manifestV2 ts

/-- The manifest pushes of Unarchive (unarchive.go lines 63-77): under
the explicitly supplied new tag name when present, otherwise under every
tag recorded in the archive record. -/
def unarchivePushes (env : Env) (repoName newTagName : String)
    (manifestV2 : ManifestV2) (recordedTags : List AcrTags) : M Unit :=
  if newTagName.length > 0 then do
    emit (Event.putManifestV2 repoName newTagName manifestV2)
    match env.putManifestV2 repoName newTagName manifestV2 with
    | Except.error e => raise e
    | Except.ok _ => emit (Event.printLine newTagName)
  else
    pushRecordedTags env repoName manifestV2 recordedTags

/-- The final destructive step of Unarchive (unarchive.go lines 78-85):
fetch the archive tag's attributes and call DeleteManifest on its
digest in the archive repository. -/
def unarchiveFinalDelete (env : Env) (archive tagName : String) : M Unit :=
  match env.acrGetTagAttributes archive tagName with
  | Except.error e => raise e
  | Except.ok tagInfo =>
    match tagInfo.tag with
    | none => panicM nilDerefMsg
    | some tagAttr =>
      match tagAttr.digest with
      | none => panicM nilDerefMsg
      | some tagDigest => do
        emit (Event.deleteManifest archive tagDigest)
        match env.deleteManifest archive tagDigest with
        | Except.error e => raise e
        | Except.ok _ => pure ()

/-- The RunE body of newUnarchiveCmd (unarchive.go lines 30-87). -/
def Unarchive (env : Env) (_loginURL repoName archive reference newTagName : String) :
    M Unit :=
  if goHasPrefix reference sha256Bare then
    match goSliceStr reference sha256ColonLen (sha256ColonLen + 8) with
    | none => panicM sliceRangeMsg
    | some h8 => do
      let tagName := repoName ++ h8
      emit (Event.getTagMeta archive tagName acrarchiveinfoKey)
      let st ← getState
      match lookupMeta st.tagMeta archive tagName with
      | none => raise errMetaNotFound
      | some tagMetadata =>
        match env.unmarshalMetadata tagMetadata with
        | Except.error e => raise e
        | Except.ok metadataObject =>
          match env.getManifestV2 archive tagName with
          | Except.error e => raise e
          | Except.ok manifestV2Ptr =>
            match manifestV2Ptr with
            | none => panicM nilDerefMsg
            | some manifestV2 =>
              match manifestV2.config with
              | none => panicM nilDerefMsg
              | some config =>
                match config.digest with
                | none => panicM nilDerefMsg
                | some configDigest => do
                  emit (Event.crossMount repoName configDigest archive)
                  match env.crossMount repoName configDigest archive with
                  | Except.error e => raise e
                  | Except.ok _ =>
                    match manifestV2.layers with
                    | none => panicM nilDerefMsg
                    | some layers => do
                      unarchiveMountLayers env repoName archive layers
                      unarchivePushes env repoName newTagName manifestV2 metadataObject.tags
                      unarchiveFinalDelete env archive tagName
  else
    raise errRefNotDigest

/-! ### Concrete environments used to exercise the model -/

def errOracle : Err := "oracle: unexpected call"

/-- A neutral oracle; concrete scenarios override individual fields. -/
def baseEnv : Env where
  now := 0
  timeToString := fun _ => emptyStr
  parseTime := fun _ => Except.error errOracle
  regexpCompile := fun _ => none
  matchString := fun _ _ => true
  acrListTags := fun _ _ => Except.ok none
  acrDeleteTag := fun _ _ => Except.ok ()
  acrListManifests := fun _ _ => Except.ok none
  deleteManifest := fun _ _ => Except.ok ()
  updateManifestMetaErr := fun _ _ _ => none
  updateTagMetaErr := fun _ _ _ => none
  getManifestStr := fun _ _ => Except.error errOracle
  getManifestV2 := fun _ _ => Except.error errOracle
  marshalMetadata := fun _ => Except.error errOracle
  unmarshalMetadata := fun _ => Except.error errOracle
  unmarshalManifestV2 := fun _ => Except.error errOracle
  crossMount := fun _ _ _ => Except.ok ()
  putManifestStr := fun _ _ _ => Except.ok ()
  putManifestV2 := fun _ _ _ => Except.ok ()
  acrGetTagAttributes := fun _ _ => Except.error errOracle

def emptyState : RegState := { manifestMeta := [], tagMeta := [] }

def agoOneDay : String := "1d"

def agoThreeDTwelveH : String := "3d12h"

def agoTwelveH : String := "12h"

def agoAbc : String := "abc"

def urlC : String := "registry.azurecr.io"

def repoC : String := "repo"

def archC : String := "archive"

def tagNameC : String := "newtag"

def shortDigestC : String := "sha256:x"

def digest15C : String := "sha256:12345678"

def bodyC : String := "manifest-body"

def cfgDigestC : String := "sha256:cfg"

def metaStrC : String := "meta-json"

def recC : AcrManifestMetadata :=
  { digest := shortDigestC, originalRepo := repoC, lastUpdateTime := emptyStr, tags := [] }

def mv2C : ManifestV2 :=
  { schemaVersion := some 2, mediaType := none,
    config := some { mediaType := none, size := none, digest := some cfgDigestC },
    layers := some [] }

/-- Oracle for the short-digest HandleManifest scenario: archive record
present and decodable, manifest body fetch and decode succeed. -/
def envC10 : Env :=
  { baseEnv with
    unmarshalMetadata := fun _ => Except.ok recC,
    getManifestStr := fun _ _ => Except.ok bodyC,
    unmarshalManifestV2 := fun _ => Except.ok (some mv2C) }

def stC10 : RegState :=
  { manifestMeta := [((repoC, shortDigestC), metaStrC)], tagMeta := [] }

def manShortC : ManifestEntry := { digest := shortDigestC, tags := none }

def cutoffMarkC : String := "time-at-cutoff"

def nowMarkC : String := "time-at-now"

def tagAC : String := "v1"

def ltOldC : String := "2019-01-01T00:00:00Z"

def tagEntryAC : TagEntry :=
  { name := tagAC, digest := digest15C, lastUpdateTime := ltOldC }

def pageTagsA : TagAttributeList := { tags := some [tagEntryAC] }

/-- A marshalMetadata oracle that renders a record as the archive time
of its first tag entry, exposing what PurgeTags stores there. -/
def encodeFirstArchiveTime (r : AcrManifestMetadata) : String :=
  match r.tags with
  | [] => emptyStr
  | t :: _ => t.archiveTime

/-- Oracle for the archive-time scenario: one condemned tag, archive
record absent, rendering of instants distinguishes negative instants
(the cutoff, one day before now = 0) from now itself. -/
def envC9 : Env :=
  { baseEnv with
    timeToString := fun i => if i < 0 then cutoffMarkC else nowMarkC,
    parseTime := fun _ => Except.ok (-(100 * hourNs)),
    acrListTags := fun _ last =>
      if last = emptyStr then Except.ok (some pageTagsA) else Except.ok none,
    marshalMetadata := fun r => Except.ok (encodeFirstArchiveTime r) }

/-- Oracle whose tag listing returns a non-nil empty page. -/
def envC8 : Env :=
  { baseEnv with acrListTags := fun _ _ => Except.ok (some { tags := some [] }) }

def manTaggedC : ManifestEntry := { digest := digest15C, tags := some [tagAC] }

def manC1 : ManifestEntry := { digest := digest15C, tags := none }

def badMetaErr : Err := "invalid character looking for beginning of value"

/-- Oracle whose archive-record decode always fails. -/
def envC1W : Env :=
  { baseEnv with unmarshalMetadata := fun _ => Except.error badMetaErr }

def stC1 : RegState :=
  { manifestMeta := [((repoC, digest15C), metaStrC)], tagMeta := [] }

def nameB1 : String := "b1"

def nameB2 : String := "b2"

def nameB3 : String := "b3"

def delFailErr : Err := "delete failed"

def tagB1 : TagEntry := { name := nameB1, digest := digest15C, lastUpdateTime := ltOldC }

def tagB2 : TagEntry := { name := nameB2, digest := digest15C, lastUpdateTime := ltOldC }

def tagB3 : TagEntry := { name := nameB3, digest := digest15C, lastUpdateTime := ltOldC }

/-- Oracle for the fail-fast witness: three stale tags, the delete of
the second fails. -/
def envC2 : Env :=
  { baseEnv with
    parseTime := fun _ => Except.ok (-(100 * hourNs)),
    acrDeleteTag := fun _ t => if t = nameB2 then Except.error delFailErr else Except.ok () }

def isDeleteTag : Event → Bool
  | Event.deleteTag _ _ => true
  | _ => false

def isPutStrWithTag (tg : String) : Event → Bool
  | Event.putManifestStr _ t _ => t = tg
  | _ => false

def aTimeC : String := "2019-06-01T00:00:00Z"

/-- An archive record holding one archived tag. -/
def recU : AcrManifestMetadata :=
  { digest := digest15C, originalRepo := repoC, lastUpdateTime := emptyStr,
    tags := [{ name := tagAC, archiveTime := aTimeC }] }

/-- repoC ++ digest15C[7:15]. -/
def archTagNameC : String := "repo12345678"

/-- archC ++ digest15C[7:15], the name the spec sentence would predict. -/
def claimedArchNameC : String := "archive12345678"

/-- Oracle for a fully successful Unarchive run of digest15C. -/
def envC5 : Env :=
  { baseEnv with
    unmarshalMetadata := fun _ => Except.ok recU,
    getManifestV2 := fun _ _ => Except.ok (some mv2C),
    acrGetTagAttributes := fun _ _ =>
      Except.ok { tag := some { digest := some digest15C } } }

def stC5 : RegState :=
  { manifestMeta := [], tagMeta := [((archC, archTagNameC), metaStrC)] }

/-- Oracle for a fully successful HandleManifest archive of digest15C. -/
def envC6 : Env :=
  { baseEnv with
    unmarshalMetadata := fun _ => Except.ok recU,
    getManifestStr := fun _ _ => Except.ok bodyC,
    unmarshalManifestV2 := fun _ => Except.ok (some mv2C) }

def stC6 : RegState :=
  { manifestMeta := [((repoC, digest15C), metaStrC)], tagMeta := [] }

def pageManifestsA : ManifestAttributeList := { manifests := some [manTaggedC] }

/-- Oracle for the cursor-threading witness: one page of one fresh tag
and one page of one tagged manifest, then empty cursors. -/
def envW8 : Env :=
  { baseEnv with
    parseTime := fun _ => Except.ok 100,
    acrListTags := fun _ last =>
      if last = tagAC then Except.ok none else Except.ok (some pageTagsA),
    acrListManifests := fun _ last =>
      if last = digest15C then Except.ok none else Except.ok (some pageManifestsA) }

instance {ε α : Type} [DecidableEq ε] [DecidableEq α] : DecidableEq (Except ε α) :=
  fun a b =>
  match a, b with
  | Except.ok x, Except.ok y =>
    if h : x = y then isTrue (by rw [h]) else isFalse (by intro hh; cases hh; exact h rfl)
  | Except.ok _, Except.error _ => isFalse (by intro hh; cases hh)
  | Except.error _, Except.ok _ => isFalse (by intro hh; cases hh)
  | Except.error x, Except.error y =>
    if h : x = y then isTrue (by rw [h]) else isFalse (by intro hh; cases hh; exact h rfl)

/-- The record PurgeTags seeds on a first archive (purge.go lines
272-274): the digest, the source repository, and a one-entry tag list
stamped with the rendered cutoff. -/
def seedRec (env : Env) (repoName D T : String) (cutoff : Int) : AcrManifestMetadata :=
  { digest := D, originalRepo := repoName, lastUpdateTime := emptyStr,
    tags := [{ name := T, archiveTime := env.timeToString cutoff }] }

/-- The record PurgeTags persists on a subsequent archive (purge.go
lines 292-293): the decoded record with one entry appended. -/
def appendRec (env : Env) (r : AcrManifestMetadata) (T : String) (cutoff : Int) :
    AcrManifestMetadata :=
  { r with tags := r.tags ++ [{ name := T, archiveTime := env.timeToString cutoff }] }

def tagV2name : String := "v2"

def s1Crec : String := "rec1-json"

def s2Crec : String := "rec2-json"

def rec1val : AcrManifestMetadata :=
  { digest := digest15C, originalRepo := repoC, lastUpdateTime := emptyStr,
    tags := [{ name := tagAC, archiveTime := aTimeC }] }

def rec2val : AcrManifestMetadata :=
  { digest := digest15C, originalRepo := repoC, lastUpdateTime := emptyStr,
    tags := [{ name := tagAC, archiveTime := aTimeC },
             { name := tagV2name, archiveTime := aTimeC }] }

/-- Oracle for the two-tags-one-digest archive scenario, with a
two-string JSON codec for the two records involved. -/
def envC4 : Env :=
  { baseEnv with
    timeToString := fun _ => aTimeC,
    parseTime := fun _ => Except.ok (-(100 * hourNs)),
    acrListTags := fun _ last =>
      if last = emptyStr then Except.ok (some
        { tags := some [{ name := tagAC, digest := digest15C, lastUpdateTime := ltOldC },
                        { name := tagV2name, digest := digest15C, lastUpdateTime := ltOldC }] })
      else Except.ok none,
    marshalMetadata := fun r =>
      if r = rec1val then Except.ok s1Crec
      else if r = rec2val then Except.ok s2Crec
      else Except.error errOracle,
    unmarshalMetadata := fun s =>
      if s = s1Crec then Except.ok rec1val else Except.error errOracle }


/-! ### Lemmas and claim theorems -/

/-- A successful parseDurationFinish is the negation of days times 24h
plus the sub-day duration. -/
theorem parseDurationFinish_ok (days : Int) (ds : String) (d : Int)
    (h : parseDurationFinish days ds = Except.ok d) :
    ∃ sub : Int, d = -(days * 24 * hourNs + sub) ∧
      ((0 < ds.length ∧ goTimeParseDuration ds = Except.ok sub) ∨
        (¬ 0 < ds.length ∧ sub = 0)) := by
  unfold parseDurationFinish at h
  by_cases hl : ds.length > 0
  · simp only [hl, if_pos] at h
    cases hg : goTimeParseDuration ds with
    | error e => rw [hg] at h; cases h
    | ok x =>
      rw [hg] at h
      cases h
      exact ⟨x, rfl, Or.inl ⟨hl, rfl⟩⟩
  · simp only [hl, if_neg, if_false] at h
    cases h
    exact ⟨0, by ring_nf, Or.inr ⟨hl, rfl⟩⟩

/-- Claim C7: ParseDuration maps "1d" to a −24h offset, "3d12h" to −84h,
"12h" (no day token) to −12h, and rejects "abc" with a parse error;
every successful result is the negation of (days × 24h + sub-day
duration). -/
theorem claim_C7_parse_duration :
    ParseDuration agoOneDay = Except.ok (-(24 * hourNs)) ∧
    ParseDuration agoThreeDTwelveH = Except.ok (-(84 * hourNs)) ∧
    ParseDuration agoTwelveH = Except.ok (-(12 * hourNs)) ∧
    ParseDuration agoAbc = Except.error invalidDurationMsg ∧
    ∀ ago d, ParseDuration ago = Except.ok d →
      ∃ p : Int × Int, durationParts ago = some p ∧
        d = -(p.1 * 24 * hourNs + p.2) := by
  refine ⟨by decide, by decide, by decide, by decide, ?_⟩
  intro ago d h
  unfold ParseDuration at h
  unfold durationParts
  by_cases hc : ago.data.contains dChar
  · simp only [hc, if_pos] at h ⊢
    obtain ⟨sub, hd, hcase⟩ := parseDurationFinish_ok _ _ _ h
    rcases hcase with ⟨hl, hg⟩ | ⟨hl, hz⟩
    · simp only [hl, if_pos, hg]
      exact ⟨_, rfl, hd⟩
    · simp only [if_neg hl]
      exact ⟨_, rfl, by rw [hd, hz]⟩
  · simp only [hc, if_neg, if_false] at h ⊢
    cases hs : scanTokenStr ago with
    | none => rw [hs] at h; cases h
    | some ds =>
      rw [hs] at h
      obtain ⟨sub, hd, hcase⟩ := parseDurationFinish_ok _ _ _ h
      rcases hcase with ⟨hl, hg⟩ | ⟨hl, hz⟩
      · simp only [hl, if_pos, hg]
        exact ⟨_, rfl, hd⟩
      · simp only [if_neg hl]
        exact ⟨_, rfl, by rw [hd, hz]⟩

/-- Witness for C7: the universal clause applied to "3d12h". -/
theorem claim_C7_witness :
    ∃ p : Int × Int, durationParts agoThreeDTwelveH = some p ∧
      (-(84 * hourNs) : Int) = -(p.1 * 24 * hourNs + p.2) :=
  claim_C7_parse_duration.2.2.2.2 agoThreeDTwelveH (-(84 * hourNs)) (by decide)

/-- Claim C10: the reference "sha256" passes Unarchive's digest-shape
check but the slice reference[7:15] is out of range, so the command
panics instead of returning an error; the identical slicing of
HandleManifest is total exactly when the digest has at least 15
characters, and a dangling manifest with a shorter digest panics the
archive branch. -/
theorem claim_C10_slice_partiality :
    (Unarchive baseEnv urlC repoC archC sha256Bare tagNameC emptyState).1 =
      Outcome.panicked sliceRangeMsg ∧
    (∀ d : String, 15 ≤ d.data.length →
      (goSliceStr d sha256ColonLen (sha256ColonLen + 8)).isSome) ∧
    (∀ d : String, d.data.length < 15 →
      goSliceStr d sha256ColonLen (sha256ColonLen + 8) = none) ∧
    (archivePart envC10 repoC archC manShortC stC10).1 =
      Outcome.panicked sliceRangeMsg := by
  refine ⟨by decide, ?_, ?_, by decide⟩
  · intro d hd
    unfold goSliceStr
    have h2 : sha256ColonLen ≤ sha256ColonLen + 8 ∧ sha256ColonLen + 8 ≤ d.data.length := by
      constructor
      · omega
      · unfold sha256ColonLen; omega
    rw [if_pos h2]
    rfl
  · intro d hd
    unfold goSliceStr
    have h2 : ¬ (sha256ColonLen ≤ sha256ColonLen + 8 ∧ sha256ColonLen + 8 ≤ d.data.length) := by
      unfold sha256ColonLen; omega
    rw [if_neg h2]

/-- Witness for C10: the totality clause applied to a 15-character
digest. -/
theorem claim_C10_witness :
    (goSliceStr digest15C sha256ColonLen (sha256ColonLen + 8)).isSome :=
  claim_C10_slice_partiality.2.1 digest15C (by decide)

/-- Sequencing a computation that returned normally. -/
theorem M_bind_ok {α β : Type} (x : M α) (f : α → M β) (s : RegState)
    (a : α) (s1 : RegState) (tr1 : List Event)
    (h : x s = (Outcome.ok a, s1, tr1)) :
    (x >>= f) s = ((f a s1).1, (f a s1).2.1, tr1 ++ (f a s1).2.2) := by
  show (match x s with
    | (Outcome.ok a, s1, tr1) =>
      match f a s1 with
      | (o, s2, tr2) => (o, s2, tr1 ++ tr2)
    | (Outcome.err e, s1, tr1) => (Outcome.err e, s1, tr1)
    | (Outcome.panicked m, s1, tr1) => (Outcome.panicked m, s1, tr1)
    | (Outcome.gas, s1, tr1) => (Outcome.gas, s1, tr1)) = _
  rw [h]

/-- Sequencing a computation that returned an error. -/
theorem M_bind_err {α β : Type} (x : M α) (f : α → M β) (s : RegState)
    (e : Err) (s1 : RegState) (tr1 : List Event)
    (h : x s = (Outcome.err e, s1, tr1)) :
    (x >>= f) s = (Outcome.err e, s1, tr1) := by
  show (match x s with
    | (Outcome.ok a, s1, tr1) =>
      match f a s1 with
      | (o, s2, tr2) => (o, s2, tr1 ++ tr2)
    | (Outcome.err e, s1, tr1) => (Outcome.err e, s1, tr1)
    | (Outcome.panicked m, s1, tr1) => (Outcome.panicked m, s1, tr1)
    | (Outcome.gas, s1, tr1) => (Outcome.gas, s1, tr1)) = _
  rw [h]

/-- Claim C9: on the first archive of a digest PurgeTags seeds the
record with the digest, the source repository and one tag entry, but
the archive time it stores is the rendering of the cutoff instant
`timeToCompare` (now plus the negative ago duration), not of the
archive instant `now`: with now = 0 and ago = "1d" the stored string
is the rendering of −24h, which differs from the rendering of now. -/
theorem claim_C9_archive_time_is_cutoff :
    (PurgeTags envC9 urlC repoC agoOneDay emptyStr archC 2 emptyState).1 =
      Outcome.ok () ∧
    lookupMeta
      (PurgeTags envC9 urlC repoC agoOneDay emptyStr archC 2 emptyState).2.1.manifestMeta
      repoC digest15C = some cutoffMarkC ∧
    envC9.timeToString envC9.now = nowMarkC ∧
    nowMarkC ≠ cutoffMarkC := by decide

/-- Counterexample for C8: a non-nil page with an empty tag list does
not terminate the enumeration normally; `tags[len(tags)-1]` panics. -/
theorem claim_C8_counterexample :
    (PurgeTags envC8 urlC repoC agoOneDay emptyStr emptyStr 1 emptyState).1 =
      Outcome.panicked outOfRangeMsg := by decide

/-- Claim C8 (amended): both page loops terminate normally when the
listing result is nil or its entry-list pointer is nil; a non-nil empty
entry list panics with an index-out-of-range error instead; and for a
non-empty page whose processing raises no error, the next listing
request uses the page's last entry's key (tag name, manifest digest)
as its cursor. -/
theorem claim_C8_pagination_amended :
    (∀ env loginURL repoName filter archive cutoff fuel st,
      purgeTagsLoop env loginURL repoName filter archive cutoff (fuel + 1) none st =
        (Outcome.ok (), st, []) ∧
      purgeTagsLoop env loginURL repoName filter archive cutoff (fuel + 1)
        (some { tags := none }) st = (Outcome.ok (), st, []) ∧
      purgeTagsLoop env loginURL repoName filter archive cutoff (fuel + 1)
        (some { tags := some [] }) st = (Outcome.panicked outOfRangeMsg, st, [])) ∧
    (∀ env loginURL repoName archive fuel st,
      purgeDanglingLoop env loginURL repoName archive (fuel + 1) none st =
        (Outcome.ok (), st, []) ∧
      purgeDanglingLoop env loginURL repoName archive (fuel + 1)
        (some { manifests := none }) st = (Outcome.ok (), st, []) ∧
      purgeDanglingLoop env loginURL repoName archive (fuel + 1)
        (some { manifests := some [] }) st = (Outcome.panicked outOfRangeMsg, st, [])) ∧
    (∀ (env : Env) (loginURL repoName filter archive : String) (cutoff : Int)
      (fuel : Nat) (tags : List TagEntry) (st st1 : RegState)
      (launches : List String) (evs1 evs2 : List Event) (tlast : TagEntry)
      (next : Option TagAttributeList),
      processTags env repoName filter archive cutoff tags st =
        (Outcome.ok launches, st1, evs1) →
      runUntagTasks env loginURL repoName launches = (evs2, []) →
      tags.getLast? = some tlast →
      env.acrListTags repoName tlast.name = Except.ok next →
      purgeTagsLoop env loginURL repoName filter archive cutoff (fuel + 1)
        (some { tags := some tags }) st =
      ((purgeTagsLoop env loginURL repoName filter archive cutoff fuel next st1).1,
       (purgeTagsLoop env loginURL repoName filter archive cutoff fuel next st1).2.1,
       evs1 ++ (evs2 ++ (Event.listTags repoName tlast.name ::
         (purgeTagsLoop env loginURL repoName filter archive cutoff fuel next st1).2.2)))) ∧
    (∀ (env : Env) (loginURL repoName archive : String) (fuel : Nat)
      (manifests : List ManifestEntry) (st st1 : RegState) (evs1 : List Event)
      (mlast : ManifestEntry) (next : Option ManifestAttributeList),
      runHandleTasks env loginURL repoName archive (danglingOf manifests) st =
        (Outcome.ok [], st1, evs1) →
      manifests.getLast? = some mlast →
      env.acrListManifests repoName mlast.digest = Except.ok next →
      purgeDanglingLoop env loginURL repoName archive (fuel + 1)
        (some { manifests := some manifests }) st =
      ((purgeDanglingLoop env loginURL repoName archive fuel next st1).1,
       (purgeDanglingLoop env loginURL repoName archive fuel next st1).2.1,
       evs1 ++ (Event.listManifests repoName mlast.digest ::
         (purgeDanglingLoop env loginURL repoName archive fuel next st1).2.2))) := by
  refine ⟨?_, ?_, ?_, ?_⟩
  · intro env loginURL repoName filter archive cutoff fuel st
    exact ⟨rfl, rfl, rfl⟩
  · intro env loginURL repoName archive fuel st
    exact ⟨rfl, rfl, rfl⟩
  · intro env loginURL repoName filter archive cutoff fuel tags st st1
      launches evs1 evs2 tlast next h1 h2 h3 h4
    show (purgeTagsLoop env loginURL repoName filter archive cutoff (Nat.succ fuel)
        (some { tags := some tags }) st) = _
    simp only [purgeTagsLoop]
    rw [M_bind_ok _ _ _ _ _ _ h1]
    rw [h2]
    simp only [h3, h4]
    rw [M_bind_ok _ _ _ _ _ _ rfl]
    cases hr : purgeTagsLoop env loginURL repoName filter archive cutoff fuel next st1 with
    | mk o rest =>
      cases rest with
      | mk s2 evs3 =>
        rw [M_bind_ok _ _ _ _ _ _ rfl]
        simp [hr]
  · intro env loginURL repoName archive fuel manifests st st1 evs1 mlast next h1 h3 h4
    show (purgeDanglingLoop env loginURL repoName archive (Nat.succ fuel)
        (some { manifests := some manifests }) st) = _
    simp only [purgeDanglingLoop]
    rw [M_bind_ok _ _ _ _ _ _ h1]
    simp only [h3, h4]
    cases hr : purgeDanglingLoop env loginURL repoName archive fuel next st1 with
    | mk o rest =>
      cases rest with
      | mk s2 evs3 =>
        rw [M_bind_ok _ _ _ _ _ _ rfl]
        simp [hr]

/-- Witness for C8: the two cursor clauses at a one-entry tag page and
a one-entry manifest page. -/
theorem claim_C8_witness :
    (purgeTagsLoop envW8 urlC repoC emptyStr emptyStr 0 (1 + 1)
      (some { tags := some [tagEntryAC] }) emptyState =
    ((purgeTagsLoop envW8 urlC repoC emptyStr emptyStr 0 1 none emptyState).1,
     (purgeTagsLoop envW8 urlC repoC emptyStr emptyStr 0 1 none emptyState).2.1,
     [] ++ ([] ++ (Event.listTags repoC tagAC ::
       (purgeTagsLoop envW8 urlC repoC emptyStr emptyStr 0 1 none emptyState).2.2)))) ∧
    (purgeDanglingLoop envW8 urlC repoC emptyStr (1 + 1)
      (some { manifests := some [manTaggedC] }) emptyState =
    ((purgeDanglingLoop envW8 urlC repoC emptyStr 1 none emptyState).1,
     (purgeDanglingLoop envW8 urlC repoC emptyStr 1 none emptyState).2.1,
     [] ++ (Event.listManifests repoC digest15C ::
       (purgeDanglingLoop envW8 urlC repoC emptyStr 1 none emptyState).2.2))) :=
  ⟨claim_C8_pagination_amended.2.2.1 envW8 urlC repoC emptyStr emptyStr 0 1
      [tagEntryAC] emptyState emptyState [] [] [] tagEntryAC none
      (by decide) rfl (by decide) (by decide),
   claim_C8_pagination_amended.2.2.2 envW8 urlC repoC emptyStr 1
      [manTaggedC] emptyState emptyState [] manTaggedC none
      (by decide) (by decide) (by decide)⟩

/-- Unfolding a bind at a state. -/
theorem M_bind_apply {α β : Type} (x : M α) (f : α → M β) (s : RegState) :
    (x >>= f) s =
      (match x s with
        | (Outcome.ok a, s1, tr1) =>
          ((f a s1).1, (f a s1).2.1, tr1 ++ (f a s1).2.2)
        | (Outcome.err e, s1, tr1) => (Outcome.err e, s1, tr1)
        | (Outcome.panicked m, s1, tr1) => (Outcome.panicked m, s1, tr1)
        | (Outcome.gas, s1, tr1) => (Outcome.gas, s1, tr1)) := by
  show (match x s with
    | (Outcome.ok a, s1, tr1) =>
      match f a s1 with
      | (o, s2, tr2) => (o, s2, tr1 ++ tr2)
    | (Outcome.err e, s1, tr1) => (Outcome.err e, s1, tr1)
    | (Outcome.panicked m, s1, tr1) => (Outcome.panicked m, s1, tr1)
    | (Outcome.gas, s1, tr1) => (Outcome.gas, s1, tr1)) = _
  cases h : x s with
  | mk o rest =>
    cases rest with
    | mk s1 tr1 => cases o <;> rfl

theorem getState_apply (s : RegState) : getState s = (Outcome.ok s, s, []) := rfl

theorem setState_apply (s' s : RegState) : setState s' s = (Outcome.ok (), s', []) := rfl

theorem emit_apply (ev : Event) (s : RegState) : emit ev s = (Outcome.ok (), s, [ev]) := rfl

theorem emitAll_apply (evs : List Event) (s : RegState) :
    emitAll evs s = (Outcome.ok (), s, evs) := rfl

theorem pure_apply {α : Type} (a : α) (s : RegState) :
    (pure a : M α) s = (Outcome.ok a, s, []) := rfl

theorem raise_apply {α : Type} (e : Err) (s : RegState) :
    (raise e : M α) s = (Outcome.err e, s, []) := rfl

theorem panicM_apply {α : Type} (m : String) (s : RegState) :
    (panicM m : M α) s = (Outcome.panicked m, s, []) := rfl

/-- The layer mounts of HandleManifest never delete a manifest. -/
theorem mountLayers_no_delete (env : Env) (archive repoName : String)
    (layers : List LayerMetadata) (s : RegState) (rp d : String) :
    Event.deleteManifest rp d ∉ (mountLayers env archive repoName layers s).2.2 := by
  induction layers generalizing s with
  | nil => simp [mountLayers, pure_apply]
  | cons layer rest ih =>
    simp only [mountLayers]
    cases layer.digest with
    | none => simp [panicM_apply]
    | some ld =>
      simp only [M_bind_apply, emit_apply]
      cases h : env.crossMount archive ld repoName with
      | error e => simp [pure_apply]
      | ok u => simpa using ih _

/-- The archive branch of HandleManifest never deletes a manifest. -/
theorem archivePart_no_delete (env : Env) (repoName archive : String)
    (m : ManifestEntry) (s : RegState) (rp d : String) :
    Event.deleteManifest rp d ∉ (archivePart env repoName archive m s).2.2 := by
  unfold archivePart
  by_cases ha : archive.length > 0
  · simp only [ha, if_pos, M_bind_apply, getState_apply]
    cases h0 : lookupMeta s.manifestMeta repoName m.digest with
    | none => simp [pure_apply]
    | some metaStr =>
      cases h1 : env.unmarshalMetadata metaStr with
      | error e => simp [h1, pure_apply]
      | ok mo =>
        simp only [h1]
        cases h2 : env.getManifestStr repoName m.digest with
        | error e => simp [h2, pure_apply]
        | ok body =>
          simp only [h2]
          cases h3 : env.unmarshalManifestV2 body with
          | error e => simp [h3, pure_apply]
          | ok mvOpt =>
            simp only [h3]
            cases mvOpt with
            | none => simp [panicM_apply]
            | some mv =>
              cases hc : mv.config with
              | none => simp [hc, panicM_apply]
              | some cfg =>
                simp only [hc]
                cases hcd : cfg.digest with
                | none => simp [hcd, panicM_apply]
                | some cfgD =>
                  simp only [hcd, M_bind_apply, emit_apply]
                  cases h4 : env.crossMount archive cfgD repoName with
                  | error e => simp [h4, pure_apply]
                  | ok u1 =>
                    simp only [h4]
                    cases hl : mv.layers with
                    | none => simp [hl, panicM_apply]
                    | some layers =>
                      simp only [hl, M_bind_apply]
                      have hml := mountLayers_no_delete env archive repoName layers s rp d
                      cases hr : mountLayers env archive repoName layers s with
                      | mk o rest =>
                        cases rest with
                        | mk s1 tr1 =>
                          rw [hr] at hml
                          cases o with
                          | ok mres =>
                            cases mres with
                            | some e => simp [pure_apply]; simpa using hml
                            | none =>
                              cases hst : synthTag repoName m.digest with
                              | none => simp [hst, panicM_apply]; simpa using hml
                              | some ntag =>
                                simp only [hst, M_bind_apply, emit_apply]
                                cases h5 : env.putManifestStr archive ntag body with
                                | error e =>
                                  simp [h5, pure_apply]
                                  simpa using hml
                                | ok u2 =>
                                  simp only [h5]
                                  cases h6 : env.updateTagMetaErr archive ntag metaStr with
                                  | some e =>
                                    simp [h6, pure_apply, M_bind_apply, emit_apply]
                                    simpa using hml
                                  | none =>
                                    simp [h6, pure_apply, M_bind_apply, emit_apply,
                                      getState_apply, setState_apply]
                                    simpa using hml
                          | err e => simpa using hml
                          | panicked msg => simpa using hml
                          | gas => simpa using hml
  · simp [ha, pure_apply]

/-- Counterexample for C1: for a dangling manifest with no archive
record, the metadata fetch (archive step 1) fails, yet HandleManifest
proceeds to DeleteManifest and deletes the manifest from the source
repository. -/
theorem claim_C1_counterexample :
    lookupMeta emptyState.manifestMeta repoC digest15C = none ∧
    (handleManifestTask baseEnv urlC repoC archC manC1 emptyState).1 =
      Outcome.ok none ∧
    Event.deleteManifest repoC digest15C ∈
      (handleManifestTask baseEnv urlC repoC archC manC1 emptyState).2.2 := by
  decide

/-- Claim C1 (amended): when any archive step after the initial metadata
fetch (decode, manifest fetch, manifest decode, cross-mounts, tag push,
metadata attach) fails, HandleManifest reports the error on the channel
and the destructive DeleteManifest is not executed; a failed metadata
fetch instead falls through to a plain delete without archiving. -/
theorem claim_C1_no_delete_after_failed_archive (env : Env)
    (loginURL repoName archive : String) (m : ManifestEntry)
    (st st2 : RegState) (evs2 : List Event) (e : Err)
    (h : archivePart env repoName archive m st =
      (Outcome.ok (ArchStatus.failed e), st2, evs2)) :
    handleManifestTask env loginURL repoName archive m st =
      (Outcome.ok (some e), st2, evs2) ∧
    ∀ rp d, Event.deleteManifest rp d ∉ evs2 := by
  constructor
  · unfold handleManifestTask
    rw [M_bind_ok _ _ _ _ _ _ h]
    simp [pure_apply]
  · intro rp d
    have hnd := archivePart_no_delete env repoName archive m st rp d
    rw [h] at hnd
    exact hnd

/-- Every event of the unarchive layer mounts is a cross-mount into
the destination repository. -/
theorem uml_events (env : Env) (repoName archive : String)
    (layers : List LayerMetadata) (s : RegState) (ev : Event)
    (h : ev ∈ (unarchiveMountLayers env repoName archive layers s).2.2) :
    ∃ dgst, ev = Event.crossMount repoName dgst archive := by
  induction layers generalizing s with
  | nil => simp [unarchiveMountLayers, pure_apply] at h
  | cons layer rest ih =>
    simp only [unarchiveMountLayers] at h
    cases hd : layer.digest with
    | none => rw [hd] at h; simp [panicM_apply] at h
    | some ld =>
      rw [hd] at h
      simp only [M_bind_apply, emit_apply] at h
      cases hc : env.crossMount repoName ld archive with
      | error e => rw [hc] at h; simp [raise_apply] at h; exact ⟨ld, by rw [h]⟩
      | ok u =>
        rw [hc] at h
        simp only [List.cons_append, List.nil_append, List.mem_cons] at h
        rcases h with h | h
        · exact ⟨ld, h⟩
        · exact ih _ h

/-- Every event of the recorded-tag pushes is a manifest push into the
destination repository or an audit line. -/
theorem prt_events (env : Env) (repoName : String) (mv : ManifestV2)
    (ts : List AcrTags) (s : RegState) (ev : Event)
    (h : ev ∈ (pushRecordedTags env repoName mv ts s).2.2) :
    (∃ t, ev = Event.putManifestV2 repoName t mv) ∨ (∃ l, ev = Event.printLine l) := by
  induction ts generalizing s with
  | nil => simp [pushRecordedTags, pure_apply] at h
  | cons t rest ih =>
    simp only [pushRecordedTags] at h
    simp only [M_bind_apply, emit_apply] at h
    cases hp : env.putManifestV2 repoName t.name mv with
    | error e =>
      rw [hp] at h; simp [raise_apply] at h
      exact Or.inl ⟨t.name, by rw [h]⟩
    | ok u =>
      rw [hp] at h
      simp only [M_bind_apply, emit_apply, List.cons_append, List.nil_append,
        List.mem_cons] at h
      rcases h with h | h | h
      · exact Or.inl ⟨t.name, h⟩
      · exact Or.inr ⟨t.name, h⟩
      · exact ih _ h

/-- Every event of the Unarchive pushes is a manifest push into the
destination repository or an audit line. -/
theorem upush_events (env : Env) (repoName ntn : String) (mv : ManifestV2)
    (ts : List AcrTags) (s : RegState) (ev : Event)
    (h : ev ∈ (unarchivePushes env repoName ntn mv ts s).2.2) :
    (∃ t, ev = Event.putManifestV2 repoName t mv) ∨ (∃ l, ev = Event.printLine l) := by
  unfold unarchivePushes at h
  by_cases hn : ntn.length > 0
  · rw [if_pos hn] at h
    simp only [M_bind_apply, emit_apply] at h
    cases hp : env.putManifestV2 repoName ntn mv with
    | error e => rw [hp] at h; simp [raise_apply] at h; exact Or.inl ⟨ntn, by rw [h]⟩
    | ok u =>
      rw [hp] at h
      simp only [emit_apply, List.cons_append, List.nil_append, List.mem_cons] at h
      rcases h with h | h | h
      · exact Or.inl ⟨ntn, h⟩
      · exact Or.inr ⟨ntn, h⟩
      · cases h
  · rw [if_neg hn] at h
    exact prt_events env repoName mv ts s ev h

/-- Every event of the final Unarchive step is a manifest delete in the
archive repository. -/
theorem ufd_events (env : Env) (archive tagName : String) (s : RegState) (ev : Event)
    (h : ev ∈ (unarchiveFinalDelete env archive tagName s).2.2) :
    ∃ dg, ev = Event.deleteManifest archive dg := by
  unfold unarchiveFinalDelete at h
  cases hga : env.acrGetTagAttributes archive tagName with
  | error e => simp only [hga] at h; simp [raise_apply] at h
  | ok tagInfo =>
    simp only [hga] at h
    cases hti : tagInfo.tag with
    | none => simp only [hti] at h; simp [panicM_apply] at h
    | some ta =>
      simp only [hti] at h
      cases htd : ta.digest with
      | none => simp only [htd] at h; simp [panicM_apply] at h
      | some dg =>
        simp only [htd, M_bind_apply, emit_apply] at h
        cases hdel : env.deleteManifest archive dg with
        | error e => rw [hdel] at h; simp [raise_apply] at h; exact ⟨dg, by rw [h]⟩
        | ok u => rw [hdel] at h; simp [pure_apply] at h; exact ⟨dg, by rw [h]⟩

/-- A successful final Unarchive step performed a successful manifest
delete in the archive repository. -/
theorem ufd_ok (env : Env) (archive tagName : String) (s : RegState)
    (h : (unarchiveFinalDelete env archive tagName s).1 = Outcome.ok ()) :
    ∃ dg, Event.deleteManifest archive dg ∈ (unarchiveFinalDelete env archive tagName s).2.2 ∧
      env.deleteManifest archive dg = Except.ok () := by
  unfold unarchiveFinalDelete at h ⊢
  cases hga : env.acrGetTagAttributes archive tagName with
  | error e => simp [hga, raise_apply] at h
  | ok tagInfo =>
    simp only [hga] at h ⊢
    cases hti : tagInfo.tag with
    | none => simp [hti, panicM_apply] at h
    | some ta =>
      simp only [hti] at h ⊢
      cases htd : ta.digest with
      | none => simp [htd, panicM_apply] at h
      | some dg =>
        simp only [htd, M_bind_apply, emit_apply] at h ⊢
        cases hdel : env.deleteManifest archive dg with
        | error e => rw [hdel] at h; simp [raise_apply] at h
        | ok u =>
          refine ⟨dg, ?_, ?_⟩
          · simp [pure_apply]
          · exact hdel

/-- Trace support of Unarchive: metadata read of the reconstructed
archive tag, cross-mounts into the destination repository, manifest
pushes, audit lines, and manifest deletes in the archive repository. -/
theorem unarchive_events (env : Env) (loginURL repoName archive reference ntn : String)
    (st : RegState) (ev : Event)
    (h : ev ∈ (Unarchive env loginURL repoName archive reference ntn st).2.2) :
    (∃ tg, synthTag repoName reference = some tg ∧
      ev = Event.getTagMeta archive tg acrarchiveinfoKey) ∨
    (∃ dgst, ev = Event.crossMount repoName dgst archive) ∨
    (∃ tg mv, ev = Event.putManifestV2 repoName tg mv) ∨
    (∃ l2, ev = Event.printLine l2) ∨
    (∃ dg, ev = Event.deleteManifest archive dg) := by
  unfold Unarchive at h
  by_cases hpre : goHasPrefix reference sha256Bare
  · rw [if_pos hpre] at h
    cases hsl : goSliceStr reference sha256ColonLen (sha256ColonLen + 8) with
    | none => simp only [hsl] at h; simp [panicM_apply] at h
    | some h8 =>
      simp only [hsl] at h
      have hsyn : synthTag repoName reference = some (repoName ++ h8) := by
        simp [synthTag, hsl]
      simp only [M_bind_apply, emit_apply, getState_apply] at h
      cases hlk : lookupMeta st.tagMeta archive (repoName ++ h8) with
      | none =>
        simp only [hlk] at h
        simp [raise_apply] at h
        exact Or.inl ⟨_, hsyn, by rw [h]⟩
      | some tagMetadata =>
        simp only [hlk] at h
        cases hum : env.unmarshalMetadata tagMetadata with
        | error e =>
          simp only [hum] at h; simp [raise_apply] at h
          exact Or.inl ⟨_, hsyn, by rw [h]⟩
        | ok metadataObject =>
          simp only [hum] at h
          cases hgm : env.getManifestV2 archive (repoName ++ h8) with
          | error e =>
            simp only [hgm] at h; simp [raise_apply] at h
            exact Or.inl ⟨_, hsyn, by rw [h]⟩
          | ok mvPtr =>
            simp only [hgm] at h
            cases mvPtr with
            | none =>
              simp [panicM_apply] at h
              exact Or.inl ⟨_, hsyn, by rw [h]⟩
            | some mv2 =>
              cases hcfg : mv2.config with
              | none =>
                simp only [hcfg] at h; simp [panicM_apply] at h
                exact Or.inl ⟨_, hsyn, by rw [h]⟩
              | some config =>
                simp only [hcfg] at h
                cases hcd : config.digest with
                | none =>
                  simp only [hcd] at h; simp [panicM_apply] at h
                  exact Or.inl ⟨_, hsyn, by rw [h]⟩
                | some configDigest =>
                  simp only [hcd, M_bind_apply, emit_apply] at h
                  cases hcm : env.crossMount repoName configDigest archive with
                  | error e =>
                    simp only [hcm] at h; simp [raise_apply] at h
                    rcases h with h | h
                    · exact Or.inl ⟨_, hsyn, by rw [h]⟩
                    · exact Or.inr (Or.inl ⟨configDigest, by rw [h]⟩)
                  | ok u1 =>
                    simp only [hcm] at h
                    cases hly : mv2.layers with
                    | none =>
                      simp only [hly] at h; simp [panicM_apply] at h
                      rcases h with h | h
                      · exact Or.inl ⟨_, hsyn, by rw [h]⟩
                      · exact Or.inr (Or.inl ⟨configDigest, by rw [h]⟩)
                    | some layers =>
                      simp only [hly, M_bind_apply] at h
                      cases hu : unarchiveMountLayers env repoName archive layers st with
                      | mk uo urest =>
                        cases urest with
                        | mk us utr =>
                          simp only [hu] at h
                          have huml : ∀ e2 ∈ utr, ∃ dgst,
                              e2 = Event.crossMount repoName dgst archive := fun e2 he2 =>
                            uml_events env repoName archive layers st e2 (by rw [hu]; exact he2)
                          have hdisp : ev = Event.getTagMeta archive (repoName ++ h8) acrarchiveinfoKey ∨
                              ev = Event.crossMount repoName configDigest archive ∨
                              ev ∈ utr ∨
                              (∃ t, ev = Event.putManifestV2 repoName t mv2) ∨
                              (∃ l2, ev = Event.printLine l2) ∨
                              (∃ dg, ev = Event.deleteManifest archive dg) := by
                            cases uo with
                            | ok uu =>
                              simp only [M_bind_apply] at h
                              cases hup : unarchivePushes env repoName ntn mv2 metadataObject.tags us with
                              | mk po prest =>
                                cases prest with
                                | mk ps ptr =>
                                  simp only [hup] at h
                                  have hpsh : ∀ e2 ∈ ptr,
                                      (∃ t, e2 = Event.putManifestV2 repoName t mv2) ∨
                                      (∃ l2, e2 = Event.printLine l2) := fun e2 he2 =>
                                    upush_events env repoName ntn mv2 metadataObject.tags us e2
                                      (by rw [hup]; exact he2)
                                  cases po with
                                  | ok pu =>
                                    simp only [List.cons_append, List.nil_append,
                                      List.mem_cons, List.mem_append] at h
                                    rcases h with h | h | h | h | h
                                    · exact Or.inl h
                                    · exact Or.inr (Or.inl h)
                                    · exact Or.inr (Or.inr (Or.inl h))
                                    · rcases hpsh _ h with hh | hh
                                      · exact Or.inr (Or.inr (Or.inr (Or.inl hh)))
                                      · exact Or.inr (Or.inr (Or.inr (Or.inr (Or.inl hh))))
                                    · rcases ufd_events env archive (repoName ++ h8) ps ev h with ⟨dg, hh⟩
                                      exact Or.inr (Or.inr (Or.inr (Or.inr (Or.inr ⟨dg, hh⟩))))
                                  | err e =>
                                    simp only [List.cons_append, List.nil_append,
                                      List.mem_cons, List.mem_append] at h
                                    rcases h with h | h | h | h
                                    · exact Or.inl h
                                    · exact Or.inr (Or.inl h)
                                    · exact Or.inr (Or.inr (Or.inl h))
                                    · rcases hpsh _ h with hh | hh
                                      · exact Or.inr (Or.inr (Or.inr (Or.inl hh)))
                                      · exact Or.inr (Or.inr (Or.inr (Or.inr (Or.inl hh))))
                                  | panicked msg =>
                                    simp only [List.cons_append, List.nil_append,
                                      List.mem_cons, List.mem_append] at h
                                    rcases h with h | h | h | h
                                    · exact Or.inl h
                                    · exact Or.inr (Or.inl h)
                                    · exact Or.inr (Or.inr (Or.inl h))
                                    · rcases hpsh _ h with hh | hh
                                      · exact Or.inr (Or.inr (Or.inr (Or.inl hh)))
                                      · exact Or.inr (Or.inr (Or.inr (Or.inr (Or.inl hh))))
                                  | gas =>
                                    simp only [List.cons_append, List.nil_append,
                                      List.mem_cons, List.mem_append] at h
                                    rcases h with h | h | h | h
                                    · exact Or.inl h
                                    · exact Or.inr (Or.inl h)
                                    · exact Or.inr (Or.inr (Or.inl h))
                                    · rcases hpsh _ h with hh | hh
                                      · exact Or.inr (Or.inr (Or.inr (Or.inl hh)))
                                      · exact Or.inr (Or.inr (Or.inr (Or.inr (Or.inl hh))))
                            | err e =>
                              simp only [List.cons_append, List.nil_append,
                                List.mem_cons, List.mem_append] at h
                              rcases h with h | h | h
                              · exact Or.inl h
                              · exact Or.inr (Or.inl h)
                              · exact Or.inr (Or.inr (Or.inl h))
                            | panicked msg =>
                              simp only [List.cons_append, List.nil_append,
                                List.mem_cons, List.mem_append] at h
                              rcases h with h | h | h
                              · exact Or.inl h
                              · exact Or.inr (Or.inl h)
                              · exact Or.inr (Or.inr (Or.inl h))
                            | gas =>
                              simp only [List.cons_append, List.nil_append,
                                List.mem_cons, List.mem_append] at h
                              rcases h with h | h | h
                              · exact Or.inl h
                              · exact Or.inr (Or.inl h)
                              · exact Or.inr (Or.inr (Or.inl h))
                          rcases hdisp with h | h | h | h | h | h
                          · exact Or.inl ⟨_, hsyn, h⟩
                          · exact Or.inr (Or.inl ⟨configDigest, h⟩)
                          · rcases huml _ h with ⟨dgst, hh⟩
                            exact Or.inr (Or.inl ⟨dgst, hh⟩)
                          · rcases h with ⟨t, hh⟩
                            exact Or.inr (Or.inr (Or.inl ⟨t, mv2, hh⟩))
                          · exact Or.inr (Or.inr (Or.inr (Or.inl h)))
                          · exact Or.inr (Or.inr (Or.inr (Or.inr h)))
  · rw [if_neg hpre] at h
    simp [raise_apply] at h

/-- A successful Unarchive run performed a successful manifest delete
in the archive repository. -/
theorem unarchive_ok_delete (env : Env) (loginURL repoName archive reference ntn : String)
    (st : RegState)
    (hok : (Unarchive env loginURL repoName archive reference ntn st).1 = Outcome.ok ()) :
    ∃ dg, Event.deleteManifest archive dg ∈
        (Unarchive env loginURL repoName archive reference ntn st).2.2 ∧
      env.deleteManifest archive dg = Except.ok () := by
  unfold Unarchive at hok ⊢
  by_cases hpre : goHasPrefix reference sha256Bare
  · rw [if_pos hpre] at hok ⊢
    cases hsl : goSliceStr reference sha256ColonLen (sha256ColonLen + 8) with
    | none => simp [hsl, panicM_apply] at hok
    | some h8 =>
      simp only [hsl] at hok ⊢
      simp only [M_bind_apply, emit_apply, getState_apply] at hok ⊢
      cases hlk : lookupMeta st.tagMeta archive (repoName ++ h8) with
      | none => simp [hlk, raise_apply] at hok
      | some tagMetadata =>
        simp only [hlk] at hok ⊢
        cases hum : env.unmarshalMetadata tagMetadata with
        | error e => simp [hum, raise_apply] at hok
        | ok metadataObject =>
          simp only [hum] at hok ⊢
          cases hgm : env.getManifestV2 archive (repoName ++ h8) with
          | error e => simp [hgm, raise_apply] at hok
          | ok mvPtr =>
            simp only [hgm] at hok ⊢
            cases mvPtr with
            | none => simp [panicM_apply] at hok
            | some mv2 =>
              cases hcfg : mv2.config with
              | none => simp [hcfg, panicM_apply] at hok
              | some config =>
                simp only [hcfg] at hok ⊢
                cases hcd : config.digest with
                | none => simp [hcd, panicM_apply] at hok
                | some configDigest =>
                  simp only [hcd, M_bind_apply, emit_apply] at hok ⊢
                  cases hcm : env.crossMount repoName configDigest archive with
                  | error e => simp [hcm, raise_apply] at hok
                  | ok u1 =>
                    simp only [hcm] at hok ⊢
                    cases hly : mv2.layers with
                    | none => simp [hly, panicM_apply] at hok
                    | some layers =>
                      simp only [hly, M_bind_apply] at hok ⊢
                      cases hu : unarchiveMountLayers env repoName archive layers st with
                      | mk uo urest =>
                        cases urest with
                        | mk us utr =>
                          simp only [hu] at hok ⊢
                          cases uo with
                          | ok uu =>
                            simp only [M_bind_apply] at hok ⊢
                            cases hup : unarchivePushes env repoName ntn mv2 metadataObject.tags us with
                            | mk po prest =>
                              cases prest with
                              | mk ps ptr =>
                                simp only [hup] at hok ⊢
                                cases po with
                                | ok pu =>
                                  obtain ⟨dg, hmem, hdel⟩ := ufd_ok env archive (repoName ++ h8) ps hok
                                  refine ⟨dg, ?_, hdel⟩
                                  simp only [List.cons_append, List.nil_append,
                                    List.mem_cons, List.mem_append]
                                  exact Or.inr (Or.inr (Or.inr (Or.inr hmem)))
                                | err e => cases hok
                                | panicked msg => cases hok
                                | gas => cases hok
                          | err e => cases hok
                          | panicked msg => cases hok
                          | gas => cases hok
  · rw [if_neg hpre] at hok
    simp [raise_apply] at hok

/-- Every event of the HandleManifest layer mounts is a cross-mount
into the archive repository. -/
theorem ml_events (env : Env) (archive repoName : String)
    (layers : List LayerMetadata) (s : RegState) (ev : Event)
    (h : ev ∈ (mountLayers env archive repoName layers s).2.2) :
    ∃ dgst, ev = Event.crossMount archive dgst repoName := by
  induction layers generalizing s with
  | nil => simp [mountLayers, pure_apply] at h
  | cons layer rest ih =>
    simp only [mountLayers] at h
    cases hd : layer.digest with
    | none => rw [hd] at h; simp [panicM_apply] at h
    | some ld =>
      rw [hd] at h
      simp only [M_bind_apply, emit_apply] at h
      cases hc : env.crossMount archive ld repoName with
      | error e => rw [hc] at h; simp [pure_apply] at h; exact ⟨ld, by rw [h]⟩
      | ok u =>
        rw [hc] at h
        simp only [List.cons_append, List.nil_append, List.mem_cons] at h
        rcases h with h | h
        · exact ⟨ld, h⟩
        · exact ih _ h

/-- Every manifest push of the archive branch goes to the archive
repository under the synthesized tag name built from the source
repository name. -/
theorem archivePart_put_events (env : Env) (repoName archive : String)
    (m : ManifestEntry) (s : RegState) (a tg body2 : String)
    (h : Event.putManifestStr a tg body2 ∈ (archivePart env repoName archive m s).2.2) :
    a = archive ∧ synthTag repoName m.digest = some tg := by
  unfold archivePart at h
  by_cases ha : archive.length > 0
  · simp only [ha, if_pos, M_bind_apply, getState_apply] at h
    cases h0 : lookupMeta s.manifestMeta repoName m.digest with
    | none => simp [h0, pure_apply] at h
    | some metaStr =>
      simp only [h0] at h
      cases h1 : env.unmarshalMetadata metaStr with
      | error e => simp [h1, pure_apply] at h
      | ok mo =>
        simp only [h1] at h
        cases h2 : env.getManifestStr repoName m.digest with
        | error e => simp [h2, pure_apply] at h
        | ok body =>
          simp only [h2] at h
          cases h3 : env.unmarshalManifestV2 body with
          | error e => simp [h3, pure_apply] at h
          | ok mvOpt =>
            simp only [h3] at h
            cases mvOpt with
            | none => simp [panicM_apply] at h
            | some mv =>
              cases hc : mv.config with
              | none => simp [hc, panicM_apply] at h
              | some cfg =>
                simp only [hc] at h
                cases hcd : cfg.digest with
                | none => simp [hcd, panicM_apply] at h
                | some cfgD =>
                  simp only [hcd, M_bind_apply, emit_apply] at h
                  cases h4 : env.crossMount archive cfgD repoName with
                  | error e => simp [h4, pure_apply] at h
                  | ok u1 =>
                    simp only [h4] at h
                    cases hl : mv.layers with
                    | none => simp [hl, panicM_apply] at h
                    | some layers =>
                      simp only [hl, M_bind_apply] at h
                      cases hr : mountLayers env archive repoName layers s with
                      | mk o rest =>
                        cases rest with
                        | mk s1 tr1 =>
                          simp only [hr] at h
                          have hml : ∀ e2 ∈ tr1, ∃ dgst,
                              e2 = Event.crossMount archive dgst repoName := fun e2 he2 =>
                            ml_events env archive repoName layers s e2 (by rw [hr]; exact he2)
                          have noput : Event.putManifestStr a tg body2 ∉ tr1 := by
                            intro hmem
                            rcases hml _ hmem with ⟨dgst, hh⟩
                            cases hh
                          cases o with
                          | ok mres =>
                            cases mres with
                            | some e =>
                              simp [pure_apply] at h
                              exact absurd h noput
                            | none =>
                              cases hst : synthTag repoName m.digest with
                              | none =>
                                simp only [hst] at h
                                simp [panicM_apply] at h
                                exact absurd h noput
                              | some ntag =>
                                simp only [hst, M_bind_apply, emit_apply] at h
                                cases h5 : env.putManifestStr archive ntag body with
                                | error e =>
                                  simp only [h5] at h
                                  simp [pure_apply] at h
                                  rcases h with h | ⟨ha2, htg, hb2⟩
                                  · exact absurd h noput
                                  · subst ha2; subst htg; exact ⟨rfl, rfl⟩
                                | ok u2 =>
                                  simp only [h5] at h
                                  cases h6 : env.updateTagMetaErr archive ntag metaStr with
                                  | some e =>
                                    simp only [h6] at h
                                    simp [pure_apply, M_bind_apply, emit_apply] at h
                                    rcases h with h | ⟨ha2, htg, hb2⟩
                                    · exact absurd h noput
                                    · subst ha2; subst htg; exact ⟨rfl, rfl⟩
                                  | none =>
                                    simp only [h6, M_bind_apply, emit_apply,
                                      getState_apply, setState_apply] at h
                                    simp [pure_apply] at h
                                    rcases h with h | ⟨ha2, htg, hb2⟩
                                    · exact absurd h noput
                                    · subst ha2; subst htg; exact ⟨rfl, rfl⟩
                          | err e => simp at h; exact absurd h noput
                          | panicked msg => simp at h; exact absurd h noput
                          | gas => simp at h; exact absurd h noput
  · simp [ha, pure_apply] at h

/-- Witness for C1: a present but undecodable archive record makes the
task report the decode error with no delete event. -/
theorem claim_C1_witness :
    handleManifestTask envC1W urlC repoC archC manC1 stC1 =
      (Outcome.ok (some badMetaErr), stC1, []) :=
  (claim_C1_no_delete_after_failed_archive envC1W urlC repoC archC manC1
    stC1 stC1 [] badMetaErr (by decide)).1

/-- Counterexample for C5: a fully successful Unarchive run calls
DeleteManifest with the archive tag's digest and never calls
AcrDeleteTag, so the manifest digest (and with it every other archive
tag pointing at it) is destroyed, not just the archive-side tag. -/
theorem claim_C5_counterexample :
    (Unarchive envC5 urlC repoC archC digest15C emptyStr stC5).1 = Outcome.ok () ∧
    Event.deleteManifest archC digest15C ∈
      (Unarchive envC5 urlC repoC archC digest15C emptyStr stC5).2.2 ∧
    (Unarchive envC5 urlC repoC archC digest15C emptyStr stC5).2.2.all
      (fun ev => !isDeleteTag ev) = true := by
  decide

/-- Claim C5 (amended): the final destructive step of a successful
Unarchive is a DeleteManifest of the digest read from the archive tag's
attributes, in the archive repository; no tag-level delete is ever
issued, so other archived tags referencing the same digest are not
preserved but removed along with the manifest. -/
theorem claim_C5_final_delete_is_manifest_delete (env : Env)
    (loginURL repoName archive reference ntn : String) (st : RegState)
    (hok : (Unarchive env loginURL repoName archive reference ntn st).1 =
      Outcome.ok ()) :
    (∀ ev ∈ (Unarchive env loginURL repoName archive reference ntn st).2.2,
      isDeleteTag ev = false) ∧
    ∃ dg, Event.deleteManifest archive dg ∈
        (Unarchive env loginURL repoName archive reference ntn st).2.2 ∧
      env.deleteManifest archive dg = Except.ok () := by
  constructor
  · intro ev hev
    rcases unarchive_events env loginURL repoName archive reference ntn st ev hev with
      ⟨tg, _, h⟩ | ⟨d2, h⟩ | ⟨tg, mv, h⟩ | ⟨l2, h⟩ | ⟨dg, h⟩ <;> subst h <;> rfl
  · exact unarchive_ok_delete env loginURL repoName archive reference ntn st hok

/-- Witness for C5: the amended claim at the concrete successful run. -/
theorem claim_C5_witness :
    ∃ dg, Event.deleteManifest archC dg ∈
        (Unarchive envC5 urlC repoC archC digest15C emptyStr stC5).2.2 ∧
      envC5.deleteManifest archC dg = Except.ok () :=
  (claim_C5_final_delete_is_manifest_delete envC5 urlC repoC archC digest15C
    emptyStr stC5 (by decide)).2

/-- Counterexample for C6: a successful archive of the dangling
manifest sha256:12345678 from repository "repo" into archive repository
"archive" pushes the synthesized tag "repo12345678" (source repository
name + 8 hex characters), not "archive12345678" as the claim's
archive-repository naming would produce. -/
theorem claim_C6_counterexample :
    (archivePart envC6 repoC archC manC1 stC6).1 = Outcome.ok ArchStatus.archived ∧
    Event.putManifestStr archC archTagNameC bodyC ∈
      (archivePart envC6 repoC archC manC1 stC6).2.2 ∧
    archTagNameC ≠ claimedArchNameC ∧
    (archivePart envC6 repoC archC manC1 stC6).2.2.all
      (fun ev => !isPutStrWithTag claimedArchNameC ev) = true := by
  decide

/-- Claim C6 (amended): the synthesized destination tag equals the
SOURCE repository's name concatenated with the 8 hex characters of the
digest following "sha256:" (synthTag repoName digest); HandleManifest
pushes under exactly that name into the archive repository, and
Unarchive reconstructs exactly the same name (synthTag repoName
reference) when reading the archive tag's metadata. -/
theorem claim_C6_synth_tag_uses_source_repo :
    (∀ (env : Env) (repoName archive : String) (m : ManifestEntry)
      (s : RegState) (a tg body2 : String),
      Event.putManifestStr a tg body2 ∈ (archivePart env repoName archive m s).2.2 →
      a = archive ∧ synthTag repoName m.digest = some tg) ∧
    (∀ (env : Env) (loginURL repoName archive reference ntn : String)
      (st : RegState) (a tg k : String),
      Event.getTagMeta a tg k ∈
        (Unarchive env loginURL repoName archive reference ntn st).2.2 →
      a = archive ∧ k = acrarchiveinfoKey ∧ synthTag repoName reference = some tg) := by
  constructor
  · intro env repoName archive m s a tg body2 h
    exact archivePart_put_events env repoName archive m s a tg body2 h
  · intro env loginURL repoName archive reference ntn st a tg k h
    rcases unarchive_events env loginURL repoName archive reference ntn st
        (Event.getTagMeta a tg k) h with
      ⟨tg2, hsyn, hh⟩ | ⟨d2, hh⟩ | ⟨t2, mv2, hh⟩ | ⟨l2, hh⟩ | ⟨dg, hh⟩
    · injection hh with h1 h2 h3
      subst h1; subst h2; subst h3
      exact ⟨rfl, rfl, hsyn⟩
    · cases hh
    · cases hh
    · cases hh
    · cases hh

/-- Witness for C6: the archive-side clause at the concrete successful
archive run. -/
theorem claim_C6_witness :
    archC = archC ∧ synthTag repoC manC1.digest = some archTagNameC :=
  claim_C6_synth_tag_uses_source_repo.1 envC6 repoC archC manC1 stC6
    archC archTagNameC bodyC (by decide)

/-- The archive-record maintenance of PurgeTags only ever emits
metadata updates of the tag's digest in the source repository. -/
theorem archiveTagMeta_events (env : Env) (repoName : String) (cutoff : Int)
    (tag : TagEntry) (s : RegState) (ev : Event)
    (h : ev ∈ (archiveTagMeta env repoName cutoff tag s).2.2) :
    ∃ v, ev = Event.updateManifestMeta repoName tag.digest acrarchiveinfoKey v := by
  unfold archiveTagMeta at h
  simp only [M_bind_apply, getState_apply] at h
  cases h0 : lookupMeta s.manifestMeta repoName tag.digest with
  | none =>
    simp only [h0] at h
    cases h1 : env.marshalMetadata
        { digest := tag.digest, originalRepo := repoName,
          lastUpdateTime := emptyStr,
          tags := [{ name := tag.name, archiveTime := env.timeToString cutoff }] } with
    | error e => simp [h1, raise_apply] at h
    | ok bytes =>
      simp only [h1, M_bind_apply, emit_apply] at h
      cases h2 : env.updateManifestMetaErr repoName tag.digest bytes with
      | some e =>
        simp only [h2] at h
        simp [raise_apply] at h
        exact ⟨bytes, by rw [h]⟩
      | none =>
        simp only [h2] at h
        simp [setState_apply] at h
        exact ⟨bytes, by rw [h]⟩
  | some stored =>
    simp only [h0] at h
    cases h1 : env.unmarshalMetadata stored with
    | error e => simp [h1, raise_apply] at h
    | ok mo =>
      simp only [h1] at h
      cases h2 : env.marshalMetadata
          { mo with tags := mo.tags ++
            [{ name := tag.name, archiveTime := env.timeToString cutoff }] } with
      | error e => simp [h2, raise_apply] at h
      | ok bytes =>
        simp only [h2, M_bind_apply, emit_apply] at h
        cases h3 : env.updateManifestMetaErr repoName tag.digest bytes with
        | some e =>
          simp only [h3] at h
          simp [raise_apply] at h
          exact ⟨bytes, by rw [h]⟩
        | none =>
          simp only [h3] at h
          simp [setState_apply] at h
          exact ⟨bytes, by rw [h]⟩

/-- Selection of one tag only ever emits metadata updates. -/
theorem processTag_events (env : Env) (repoName filter archive : String)
    (cutoff : Int) (tag : TagEntry) (s : RegState) (ev : Event)
    (h : ev ∈ (processTag env repoName filter archive cutoff tag s).2.2) :
    ∃ v, ev = Event.updateManifestMeta repoName tag.digest acrarchiveinfoKey v := by
  unfold processTag at h
  by_cases hf : filter.length > 0 && !env.matchString filter tag.name
  · rw [if_pos hf] at h; simp [pure_apply] at h
  · rw [if_neg hf] at h
    cases hp : env.parseTime tag.lastUpdateTime with
    | error e => simp only [hp] at h; simp [raise_apply] at h
    | ok t =>
      simp only [hp] at h
      by_cases ht : t < cutoff
      · rw [if_pos ht] at h
        by_cases ha : archive.length > 0
        · rw [if_pos ha] at h
          simp only [M_bind_apply] at h
          cases hres : archiveTagMeta env repoName cutoff tag s with
          | mk o rest =>
            cases rest with
            | mk s1 tr1 =>
              simp only [hres] at h
              have htr : ∀ e2 ∈ tr1, ∃ v,
                  e2 = Event.updateManifestMeta repoName tag.digest acrarchiveinfoKey v :=
                fun e2 he2 => archiveTagMeta_events env repoName cutoff tag s e2
                  (by rw [hres]; exact he2)
              cases o with
              | ok u => simp [pure_apply] at h; exact htr _ h
              | err e => exact htr _ h
              | panicked msg => exact htr _ h
              | gas => exact htr _ h
        · rw [if_neg ha] at h
          simp [M_bind_apply, pure_apply] at h
      · rw [if_neg ht] at h; simp [pure_apply] at h

/-- The selection pass over a page only ever emits metadata updates. -/
theorem processTags_events (env : Env) (repoName filter archive : String)
    (cutoff : Int) (tags : List TagEntry) (s : RegState) (ev : Event)
    (h : ev ∈ (processTags env repoName filter archive cutoff tags s).2.2) :
    ∃ tag v, ev = Event.updateManifestMeta repoName tag acrarchiveinfoKey v := by
  induction tags generalizing s with
  | nil => simp [processTags, pure_apply] at h
  | cons t ts ih =>
    simp only [processTags, M_bind_apply] at h
    cases hres : processTag env repoName filter archive cutoff t s with
    | mk o rest =>
      cases rest with
      | mk s1 tr1 =>
        simp only [hres] at h
        have htr : ∀ e2 ∈ tr1, ∃ v,
            e2 = Event.updateManifestMeta repoName t.digest acrarchiveinfoKey v :=
          fun e2 he2 => processTag_events env repoName filter archive cutoff t s e2
            (by rw [hres]; exact he2)
        cases o with
        | ok r =>
          cases hres2 : processTags env repoName filter archive cutoff ts s1 with
          | mk o2 rest2 =>
            cases rest2 with
            | mk s2 tr2 =>
              simp only [hres2] at h
              cases o2 with
              | ok r2 =>
                simp only [List.mem_append, pure_apply] at h
                simp [pure_apply] at h
                rcases h with h | h
                · rcases htr _ h with ⟨v, hv⟩; exact ⟨t.digest, v, hv⟩
                · exact ih s1 (by rw [hres2]; exact h)
              | err e =>
                simp only [List.mem_append] at h
                rcases h with h | h
                · rcases htr _ h with ⟨v, hv⟩; exact ⟨t.digest, v, hv⟩
                · exact ih s1 (by rw [hres2]; exact h)
              | panicked msg =>
                simp only [List.mem_append] at h
                rcases h with h | h
                · rcases htr _ h with ⟨v, hv⟩; exact ⟨t.digest, v, hv⟩
                · exact ih s1 (by rw [hres2]; exact h)
              | gas =>
                simp only [List.mem_append] at h
                rcases h with h | h
                · rcases htr _ h with ⟨v, hv⟩; exact ⟨t.digest, v, hv⟩
                · exact ih s1 (by rw [hres2]; exact h)
        | err e => rcases htr _ h with ⟨v, hv⟩; exact ⟨t.digest, v, hv⟩
        | panicked msg => rcases htr _ h with ⟨v, hv⟩; exact ⟨t.digest, v, hv⟩
        | gas => rcases htr _ h with ⟨v, hv⟩; exact ⟨t.digest, v, hv⟩

/-- A tag is selected only when its parsed last-update instant lies
strictly before the cutoff. -/
theorem processTag_some (env : Env) (repoName filter archive : String)
    (cutoff : Int) (tag : TagEntry) (s s1 : RegState) (evs : List Event)
    (n : String)
    (h : processTag env repoName filter archive cutoff tag s =
      (Outcome.ok (some n), s1, evs)) :
    n = tag.name ∧ ∃ tt, env.parseTime tag.lastUpdateTime = Except.ok tt ∧ tt < cutoff := by
  unfold processTag at h
  by_cases hf : filter.length > 0 && !env.matchString filter tag.name
  · rw [if_pos hf] at h
    simp [pure_apply] at h
  · rw [if_neg hf] at h
    cases hp : env.parseTime tag.lastUpdateTime with
    | error e => simp [hp, raise_apply] at h
    | ok t =>
      simp only [hp] at h
      by_cases ht : t < cutoff
      · rw [if_pos ht] at h
        refine ⟨?_, t, rfl, ht⟩
        by_cases ha : archive.length > 0
        · rw [if_pos ha] at h
          simp only [M_bind_apply] at h
          cases hres : archiveTagMeta env repoName cutoff tag s with
          | mk o rest =>
            cases rest with
            | mk s2 tr1 =>
              simp only [hres] at h
              cases o with
              | ok u => simp [pure_apply] at h; exact h.1.symm
              | err e => cases h
              | panicked msg => cases h
              | gas => cases h
        · rw [if_neg ha] at h
          simp [M_bind_apply, pure_apply] at h
          exact h.1.symm
      · rw [if_neg ht] at h
        simp [pure_apply] at h
  -- unreachable

/-- Every launched Untag of a page names a page tag whose parsed
last-update instant lies strictly before the cutoff. -/
theorem processTags_launches (env : Env) (repoName filter archive : String)
    (cutoff : Int) (tags : List TagEntry) (s s1 : RegState) (evs : List Event)
    (launches : List String)
    (h : processTags env repoName filter archive cutoff tags s =
      (Outcome.ok launches, s1, evs)) :
    ∀ n ∈ launches, ∃ t, t ∈ tags ∧ t.name = n ∧
      ∃ tt, env.parseTime t.lastUpdateTime = Except.ok tt ∧ tt < cutoff := by
  induction tags generalizing s launches s1 evs with
  | nil =>
    simp only [processTags, pure_apply] at h
    cases h
    intro n hn
    cases hn
  | cons t ts ih =>
    simp only [processTags, M_bind_apply] at h
    cases hres : processTag env repoName filter archive cutoff t s with
    | mk o rest =>
      cases rest with
      | mk s2 tr1 =>
        simp only [hres] at h
        cases o with
        | ok r =>
          cases hres2 : processTags env repoName filter archive cutoff ts s2 with
          | mk o2 rest2 =>
            cases rest2 with
            | mk s3 tr2 =>
              simp only [hres2] at h
              cases o2 with
              | ok r2 =>
                simp only [M_bind_apply, pure_apply] at h
                injection h with h1 hrest
                injection h1 with h1
                intro n hn
                rw [← h1] at hn
                rcases List.mem_append.mp hn with hn | hn
                · cases r with
                  | none => cases hn
                  | some n0 =>
                    simp at hn
                    subst hn
                    obtain ⟨hname, tt, hpt, hlt⟩ :=
                      processTag_some env repoName filter archive cutoff t s s2 tr1 n hres
                    exact ⟨t, List.mem_cons_self t ts, hname.symm, tt, hpt, hlt⟩
                · obtain ⟨t2, ht2, hrest2⟩ := ih s2 s3 tr2 r2 hres2 n hn
                  exact ⟨t2, List.mem_cons_of_mem t ht2, hrest2⟩
              | err e => cases h
              | panicked msg => cases h
              | gas => cases h
        | err e => cases h
        | panicked msg => cases h
        | gas => cases h

/-- The Untag tasks of a page only emit tag deletes of launched names
and audit lines. -/
theorem runUntagTasks_events (env : Env) (loginURL repoName : String)
    (ns : List String) (ev : Event)
    (h : ev ∈ (runUntagTasks env loginURL repoName ns).1) :
    (∃ n, n ∈ ns ∧ ev = Event.deleteTag repoName n) ∨
    (∃ l, ev = Event.printLine l) := by
  induction ns with
  | nil => simp [runUntagTasks] at h
  | cons n ns ih =>
    simp only [runUntagTasks, runUntag] at h
    cases hd : env.acrDeleteTag repoName n with
    | error e =>
      rw [hd] at h
      simp only [List.cons_append, List.nil_append, List.mem_cons] at h
      rcases h with h | h
      · exact Or.inl ⟨n, List.mem_cons_self n ns, h⟩
      · rcases ih h with ⟨n2, hn2, hev⟩ | hl
        · exact Or.inl ⟨n2, List.mem_cons_of_mem n hn2, hev⟩
        · exact Or.inr hl
    | ok u =>
      rw [hd] at h
      simp only [List.cons_append, List.nil_append, List.mem_cons] at h
      rcases h with h | h | h
      · exact Or.inl ⟨n, List.mem_cons_self n ns, h⟩
      · exact Or.inr ⟨_, h⟩
      · rcases ih h with ⟨n2, hn2, hev⟩ | hl
        · exact Or.inl ⟨n2, List.mem_cons_of_mem n hn2, hev⟩
        · exact Or.inr hl

/-- Every launched Untag task runs to completion: its delete is
attempted, and a successful delete prints the audit line. -/
theorem runUntagTasks_complete (env : Env) (loginURL repoName : String)
    (ns : List String) (n : String) (hn : n ∈ ns) :
    Event.deleteTag repoName n ∈ (runUntagTasks env loginURL repoName ns).1 ∧
    (env.acrDeleteTag repoName n = Except.ok () →
      Event.printLine (fmtTagLine loginURL repoName n) ∈
        (runUntagTasks env loginURL repoName ns).1) := by
  induction ns with
  | nil => cases hn
  | cons m ns ih =>
    rcases List.mem_cons.mp hn with hn | hn
    · subst hn
      simp only [runUntagTasks, runUntag]
      cases hd : env.acrDeleteTag repoName n with
      | error e =>
        refine ⟨by simp, fun hcontra => ?_⟩
        simp at hcontra
      | ok u =>
        refine ⟨by simp, fun hok2 => by simp⟩
    · have := ih hn
      simp only [runUntagTasks, runUntag]
      cases hd : env.acrDeleteTag repoName m with
      | error e =>
        refine ⟨?_, fun hok => ?_⟩
        · simp only [List.cons_append, List.nil_append, List.mem_cons]
          exact Or.inr this.1
        · simp only [List.cons_append, List.nil_append, List.mem_cons]
          exact Or.inr (this.2 hok)
      | ok u =>
        refine ⟨?_, fun hok => ?_⟩
        · simp only [List.cons_append, List.nil_append, List.mem_cons]
          exact Or.inr (Or.inr this.1)
        · simp only [List.cons_append, List.nil_append, List.mem_cons]
          exact Or.inr (Or.inr (this.2 hok))

/-- If every listed tag named T parses to an instant not before the
cutoff, the page loop never attempts to delete T. -/
theorem purgeTagsLoop_no_delete (env : Env) (loginURL repoName filter archive T : String)
    (cutoff : Int)
    (H : ∀ last r tags t, env.acrListTags repoName last = Except.ok (some r) →
      r.tags = some tags → t ∈ tags → t.name = T →
      ∃ tt, env.parseTime t.lastUpdateTime = Except.ok tt ∧ ¬ tt < cutoff) :
    ∀ (fuel : Nat) (ropt : Option TagAttributeList) (st : RegState),
      (∃ last, env.acrListTags repoName last = Except.ok ropt) →
      Event.deleteTag repoName T ∉
        (purgeTagsLoop env loginURL repoName filter archive cutoff fuel ropt st).2.2 := by
  intro fuel
  induction fuel with
  | zero => intro ropt st _; simp [purgeTagsLoop, gasM]
  | succ fuel ih =>
    intro ropt st hsrc
    cases ropt with
    | none => simp [purgeTagsLoop, pure_apply]
    | some r =>
      cases hrt : r.tags with
      | none => simp [purgeTagsLoop, hrt, pure_apply]
      | some tags =>
        simp only [purgeTagsLoop, hrt, M_bind_apply]
        cases hp : processTags env repoName filter archive cutoff tags st with
        | mk o rest =>
          cases rest with
          | mk st1 evs1 =>
            have hevs1 : Event.deleteTag repoName T ∉ evs1 := by
              intro hmem
              rcases processTags_events env repoName filter archive cutoff tags st
                  (Event.deleteTag repoName T) (by rw [hp]; exact hmem) with ⟨tg, v, hv⟩
              cases hv
            cases o with
            | err e => exact hevs1
            | panicked msg => exact hevs1
            | gas => exact hevs1
            | ok launches =>
              cases hr2 : runUntagTasks env loginURL repoName launches with
              | mk evs2 errs =>
                simp only [hr2]
                have hevs2 : Event.deleteTag repoName T ∉ evs2 := by
                  intro hmem
                  rcases runUntagTasks_events env loginURL repoName launches
                      (Event.deleteTag repoName T) (by rw [hr2]; exact hmem) with
                    ⟨n, hnl, hv⟩ | ⟨l, hv⟩
                  · injection hv with hv1 hv2
                    subst hv2
                    obtain ⟨t, htmem, htname, tt, hpt, hlt⟩ :=
                      processTags_launches env repoName filter archive cutoff tags st
                        st1 evs1 launches hp T hnl
                    obtain ⟨last, hlast⟩ := hsrc
                    obtain ⟨tt2, hpt2, hnlt⟩ := H last r tags t hlast hrt htmem htname
                    rw [hpt] at hpt2
                    injection hpt2 with he
                    exact hnlt (he ▸ hlt)
                  · cases hv
                cases errs with
                | cons e es =>
                  simp only [M_bind_apply, emitAll_apply, raise_apply]
                  intro hx
                  simp only [List.mem_append, List.not_mem_nil, or_false] at hx
                  rcases hx with hx | hx
                  · exact hevs1 hx
                  · exact hevs2 hx
                | nil =>
                  cases hgl : tags.getLast? with
                  | none =>
                    simp only [hgl, M_bind_apply, emitAll_apply, panicM_apply]
                    intro hx
                    simp only [List.mem_append, List.not_mem_nil, or_false] at hx
                    rcases hx with hx | hx
                    · exact hevs1 hx
                    · exact hevs2 hx
                  | some tlast =>
                    simp only [hgl, M_bind_apply, emitAll_apply, emit_apply]
                    cases hnext : env.acrListTags repoName tlast.name with
                    | error e =>
                      simp only [hnext, raise_apply]
                      intro hx
                      simp only [List.mem_append, List.mem_cons, List.not_mem_nil,
                        or_false] at hx
                      rcases hx with hx | hx | hx
                      · exact hevs1 hx
                      · exact hevs2 hx
                      · cases hx
                    | ok next =>
                      simp only [hnext]
                      have hrec := ih next st1 ⟨tlast.name, hnext⟩
                      cases hloop : purgeTagsLoop env loginURL repoName filter archive
                          cutoff fuel next st1 with
                      | mk o3 rest3 =>
                        cases rest3 with
                        | mk st3 evs3 =>
                          rw [hloop] at hrec
                          intro hx
                          simp only [List.mem_append, List.mem_cons, List.not_mem_nil,
                            or_false] at hx
                          rcases hx with hx | hx | hx | hx
                          · exact hevs1 hx
                          · exact hevs2 hx
                          · cases hx
                          · exact hrec (by simpa using hx)

/-- Claim C2: if any deletion task of a page reports an error, the run
returns the first drained error and does not fetch or process the next
page (no further listing event); the other already-launched tasks of
the page still run to completion and successful ones are reported by an
audit line.  Stated for the tag page loop, and for the dangling
manifest page loop. -/
theorem claim_C2_fail_fast :
    (∀ (env : Env) (loginURL repoName filter archive : String) (cutoff : Int)
      (fuel : Nat) (tags : List TagEntry) (st st1 : RegState)
      (launches : List String) (evs1 evs2 : List Event) (e : Err) (rest : List Err),
      processTags env repoName filter archive cutoff tags st =
        (Outcome.ok launches, st1, evs1) →
      runUntagTasks env loginURL repoName launches = (evs2, e :: rest) →
      purgeTagsLoop env loginURL repoName filter archive cutoff (fuel + 1)
        (some { tags := some tags }) st = (Outcome.err e, st1, evs1 ++ evs2) ∧
      (∀ rp la, Event.listTags rp la ∉ evs1 ++ evs2) ∧
      (∀ n ∈ launches, Event.deleteTag repoName n ∈ evs2 ∧
        (env.acrDeleteTag repoName n = Except.ok () →
          Event.printLine (fmtTagLine loginURL repoName n) ∈ evs2))) ∧
    (∀ (env : Env) (loginURL repoName archive : String) (fuel : Nat)
      (manifests : List ManifestEntry) (st st1 : RegState) (evs1 : List Event)
      (e : Err) (rest : List Err),
      runHandleTasks env loginURL repoName archive (danglingOf manifests) st =
        (Outcome.ok (e :: rest), st1, evs1) →
      purgeDanglingLoop env loginURL repoName archive (fuel + 1)
        (some { manifests := some manifests }) st = (Outcome.err e, st1, evs1)) := by
  constructor
  · intro env loginURL repoName filter archive cutoff fuel tags st st1
      launches evs1 evs2 e rest h1 h2
    refine ⟨?_, ?_, ?_⟩
    · show purgeTagsLoop env loginURL repoName filter archive cutoff (Nat.succ fuel)
        (some { tags := some tags }) st = _
      simp only [purgeTagsLoop]
      rw [M_bind_ok _ _ _ _ _ _ h1]
      rw [h2]
      simp [M_bind_apply, emitAll_apply, raise_apply]
    · intro rp la hmem
      rcases List.mem_append.mp hmem with hmem | hmem
      · rcases processTags_events env repoName filter archive cutoff tags st
            (Event.listTags rp la) (by rw [h1]; exact hmem) with ⟨tg, v, hv⟩
        cases hv
      · rcases runUntagTasks_events env loginURL repoName launches
            (Event.listTags rp la) (by rw [h2]; exact hmem) with ⟨n, hn, hv⟩ | ⟨l, hv⟩
        · cases hv
        · cases hv
    · intro n hn
      have hc := runUntagTasks_complete env loginURL repoName launches n hn
      rw [h2] at hc
      exact hc
  · intro env loginURL repoName archive fuel manifests st st1 evs1 e rest h1
    show purgeDanglingLoop env loginURL repoName archive (Nat.succ fuel)
      (some { manifests := some manifests }) st = _
    simp only [purgeDanglingLoop]
    rw [M_bind_ok _ _ _ _ _ _ h1]
    simp [raise_apply]

/-- Witness for C2: three stale tags, the second delete fails; the page
loop returns that error after all three deletes ran, the two successes
printed. -/
theorem claim_C2_witness :
    purgeTagsLoop envC2 urlC repoC emptyStr emptyStr 0 1
      (some { tags := some [tagB1, tagB2, tagB3] }) emptyState =
    (Outcome.err delFailErr, emptyState,
      [] ++ [Event.deleteTag repoC nameB1,
        Event.printLine (fmtTagLine urlC repoC nameB1),
        Event.deleteTag repoC nameB2,
        Event.deleteTag repoC nameB3,
        Event.printLine (fmtTagLine urlC repoC nameB3)]) :=
  (claim_C2_fail_fast.1 envC2 urlC repoC emptyStr emptyStr 0 0 [tagB1, tagB2, tagB3]
    emptyState emptyState [nameB1, nameB2, nameB3] []
    [Event.deleteTag repoC nameB1,
      Event.printLine (fmtTagLine urlC repoC nameB1),
      Event.deleteTag repoC nameB2,
      Event.deleteTag repoC nameB3,
      Event.printLine (fmtTagLine urlC repoC nameB3)]
    delFailErr [] (by decide) (by decide)).1

/-- Claim C3: a tag T all of whose enumerated occurrences have a
lastUpdateTime that parses to an instant greater than or equal to the
cutoff (now plus the parsed negative ago duration) is never selected
for deletion by PurgeTags, for every filter pattern and matcher (the
age comparison is the strict Before). -/
theorem claim_C3_age_guard (env : Env) (loginURL repoName ago filter archive T : String)
    (fuel : Nat) (st : RegState) (dur : Int)
    (hd : ParseDuration ago = Except.ok dur)
    (H : ∀ last r tags t, env.acrListTags repoName last = Except.ok (some r) →
      r.tags = some tags → t ∈ tags → t.name = T →
      ∃ tt, env.parseTime t.lastUpdateTime = Except.ok tt ∧ ¬ tt < env.now + dur) :
    Event.deleteTag repoName T ∉
      (PurgeTags env loginURL repoName ago filter archive fuel st).2.2 := by
  unfold PurgeTags
  rw [hd]
  cases hrc : env.regexpCompile filter with
  | some e => simp [raise_apply]
  | none =>
    simp only [M_bind_apply, emit_apply]
    cases hl : env.acrListTags repoName emptyStr with
    | error e => simp [hl, raise_apply]
    | ok ropt =>
      simp only [hl]
      have hrec := purgeTagsLoop_no_delete env loginURL repoName filter archive T
        (env.now + dur) H fuel ropt st ⟨emptyStr, hl⟩
      cases hloop : purgeTagsLoop env loginURL repoName filter archive
          (env.now + dur) fuel ropt st with
      | mk o3 rest3 =>
        cases rest3 with
        | mk st3 evs3 =>
          rw [hloop] at hrec
          intro hx
          simp only [List.cons_append, List.nil_append, List.mem_cons] at hx
          rcases hx with hx | hx
          · cases hx
          · exact hrec (by simpa using hx)

/-- Witness for C3: the guard at the neutral oracle with ago = "1d". -/
theorem claim_C3_witness :
    Event.deleteTag repoC tagAC ∉
      (PurgeTags baseEnv urlC repoC agoOneDay emptyStr emptyStr 3 emptyState).2.2 :=
  claim_C3_age_guard baseEnv urlC repoC agoOneDay emptyStr emptyStr tagAC 3 emptyState
    (-(24 * hourNs)) (by decide)
    (fun last r tags t h1 _ _ _ => by simp [baseEnv] at h1)


/-- Reading back a metadata annotation just written. -/
theorem lookup_setMeta (l : List ((String × String) × String)) (repo ref v : String) :
    lookupMeta (setMeta l repo ref v) repo ref = some v := by
  induction l with
  | nil => simp [setMeta, lookupMeta]
  | cons kv rest ih =>
    cases kv with
    | mk k w =>
      by_cases hk : k = (repo, ref)
      · simp [setMeta, lookupMeta, hk]
      · simp [setMeta, lookupMeta, hk, ih]

/-- Writing a metadata annotation keeps one entry per key. -/
theorem countKey_setMeta (l : List ((String × String) × String)) (repo ref v : String) :
    countKey (setMeta l repo ref v) repo ref =
      if countKey l repo ref = 0 then 1 else countKey l repo ref := by
  induction l with
  | nil => simp [setMeta, countKey]
  | cons kv rest ih =>
    cases kv with
    | mk k w =>
      by_cases hk : k = (repo, ref)
      · simp [setMeta, countKey, hk]
      · simp [setMeta, countKey, hk, ih]

/-- First archive of a digest: the seeded one-entry record is
marshalled and stored on the source manifest. -/
theorem archiveTagMeta_first (env : Env) (repoName : String) (cutoff : Int)
    (tag : TagEntry) (st : RegState) (s1 : String)
    (h0 : lookupMeta st.manifestMeta repoName tag.digest = none)
    (hm : env.marshalMetadata (seedRec env repoName tag.digest tag.name cutoff) =
      Except.ok s1)
    (hu : env.updateManifestMetaErr repoName tag.digest s1 = none) :
    archiveTagMeta env repoName cutoff tag st =
      (Outcome.ok (),
       { st with manifestMeta := setMeta st.manifestMeta repoName tag.digest s1 },
       [Event.updateManifestMeta repoName tag.digest acrarchiveinfoKey s1]) := by
  unfold archiveTagMeta
  simp only [M_bind_apply, getState_apply, h0]
  rw [show seedRec env repoName tag.digest tag.name cutoff =
    { digest := tag.digest, originalRepo := repoName, lastUpdateTime := emptyStr,
      tags := [{ name := tag.name, archiveTime := env.timeToString cutoff }] } from rfl] at hm
  simp only [hm, M_bind_apply, emit_apply, hu, setState_apply]
  simp

/-- Later archive of the same digest: the stored record is decoded,
one entry appended, and the result stored back under the same key. -/
theorem archiveTagMeta_append (env : Env) (repoName : String) (cutoff : Int)
    (tag : TagEntry) (st : RegState) (s1 s2 : String) (rec : AcrManifestMetadata)
    (h0 : lookupMeta st.manifestMeta repoName tag.digest = some s1)
    (hun : env.unmarshalMetadata s1 = Except.ok rec)
    (hm : env.marshalMetadata (appendRec env rec tag.name cutoff) = Except.ok s2)
    (hu : env.updateManifestMetaErr repoName tag.digest s2 = none) :
    archiveTagMeta env repoName cutoff tag st =
      (Outcome.ok (),
       { st with manifestMeta := setMeta st.manifestMeta repoName tag.digest s2 },
       [Event.updateManifestMeta repoName tag.digest acrarchiveinfoKey s2]) := by
  unfold archiveTagMeta
  simp only [M_bind_apply, getState_apply, h0, hun]
  rw [show appendRec env rec tag.name cutoff =
    { rec with tags := rec.tags ++
      [{ name := tag.name, archiveTime := env.timeToString cutoff }] } from rfl] at hm
  simp only [hm, M_bind_apply, emit_apply, hu, setState_apply]
  simp

/-- A stale tag passing the filter is selected after its archive
record is maintained. -/
theorem processTag_selected (env : Env) (repoName filter archive : String)
    (cutoff : Int) (tag : TagEntry) (st st2 : RegState) (evs : List Event)
    (tv : Int)
    (hflt : (filter.length > 0 && !env.matchString filter tag.name) = false)
    (ha : archive.length > 0)
    (hp : env.parseTime tag.lastUpdateTime = Except.ok tv) (hlt : tv < cutoff)
    (harch : archiveTagMeta env repoName cutoff tag st = (Outcome.ok (), st2, evs)) :
    processTag env repoName filter archive cutoff tag st =
      (Outcome.ok (some tag.name), st2, evs) := by
  unfold processTag
  rw [if_neg (by simp [hflt])]
  simp only [hp]
  rw [if_pos hlt, if_pos ha]
  rw [M_bind_ok _ _ _ _ _ _ harch]
  simp [pure_apply]

/-- Claim C4: archiving two different condemned tags that resolve to
the same digest in one run produces a single stored ArchiveRecord for
that digest whose tag list is the first record's list with the second
entry appended: the first archive seeds a one-entry record, the second
decodes it and appends, the store keeps exactly one entry for the key,
and no prior entry is dropped. -/
theorem claim_C4_archive_append (env : Env)
    (loginURL repoName ago archive T1 T2 D lt1 lt2 s1 s2 : String)
    (dur t1v t2v : Int) (st0 : RegState)
    (ha : archive.length > 0)
    (hd : ParseDuration ago = Except.ok dur)
    (hrc : env.regexpCompile emptyStr = none)
    (hp1 : env.parseTime lt1 = Except.ok t1v) (ho1 : t1v < env.now + dur)
    (hp2 : env.parseTime lt2 = Except.ok t2v) (ho2 : t2v < env.now + dur)
    (hl1 : env.acrListTags repoName emptyStr = Except.ok (some
      { tags := some [{ name := T1, digest := D, lastUpdateTime := lt1 },
                      { name := T2, digest := D, lastUpdateTime := lt2 }] }))
    (hl2 : env.acrListTags repoName T2 = Except.ok none)
    (hm0 : lookupMeta st0.manifestMeta repoName D = none)
    (hc0 : countKey st0.manifestMeta repoName D = 0)
    (hmar1 : env.marshalMetadata (seedRec env repoName D T1 (env.now + dur)) = Except.ok s1)
    (hunm1 : env.unmarshalMetadata s1 = Except.ok (seedRec env repoName D T1 (env.now + dur)))
    (hmar2 : env.marshalMetadata
      (appendRec env (seedRec env repoName D T1 (env.now + dur)) T2 (env.now + dur)) =
      Except.ok s2)
    (hup1 : env.updateManifestMetaErr repoName D s1 = none)
    (hup2 : env.updateManifestMetaErr repoName D s2 = none)
    (hdel1 : env.acrDeleteTag repoName T1 = Except.ok ())
    (hdel2 : env.acrDeleteTag repoName T2 = Except.ok ()) :
    (PurgeTags env loginURL repoName ago emptyStr archive 2 st0).1 = Outcome.ok () ∧
    lookupMeta (PurgeTags env loginURL repoName ago emptyStr archive 2 st0).2.1.manifestMeta
      repoName D = some s2 ∧
    countKey (PurgeTags env loginURL repoName ago emptyStr archive 2 st0).2.1.manifestMeta
      repoName D = 1 ∧
    (appendRec env (seedRec env repoName D T1 (env.now + dur)) T2 (env.now + dur)).tags =
      (seedRec env repoName D T1 (env.now + dur)).tags ++
        [{ name := T2, archiveTime := env.timeToString (env.now + dur) }] := by
  set cutoff := env.now + dur with hcutdef
  set e1 : TagEntry := { name := T1, digest := D, lastUpdateTime := lt1 } with he1
  set e2 : TagEntry := { name := T2, digest := D, lastUpdateTime := lt2 } with he2
  set st1 : RegState :=
    { st0 with manifestMeta := setMeta st0.manifestMeta repoName D s1 } with hst1
  set st2 : RegState :=
    { st1 with manifestMeta := setMeta st1.manifestMeta repoName D s2 } with hst2
  have h_at1 : archiveTagMeta env repoName cutoff e1 st0 =
      (Outcome.ok (), st1,
       [Event.updateManifestMeta repoName D acrarchiveinfoKey s1]) :=
    archiveTagMeta_first env repoName cutoff e1 st0 s1 hm0 hmar1 hup1
  have h_pt1 : processTag env repoName emptyStr archive cutoff e1 st0 =
      (Outcome.ok (some T1), st1,
       [Event.updateManifestMeta repoName D acrarchiveinfoKey s1]) :=
    processTag_selected env repoName emptyStr archive cutoff e1 st0 st1 _ t1v
      (by simp [emptyStr]) ha hp1 ho1 h_at1
  have hlk1 : lookupMeta st1.manifestMeta repoName D = some s1 := by
    rw [hst1]
    exact lookup_setMeta st0.manifestMeta repoName D s1
  have h_at2 : archiveTagMeta env repoName cutoff e2 st1 =
      (Outcome.ok (), st2,
       [Event.updateManifestMeta repoName D acrarchiveinfoKey s2]) :=
    archiveTagMeta_append env repoName cutoff e2 st1 s1 s2
      (seedRec env repoName D T1 cutoff) hlk1 hunm1 hmar2 hup2
  have h_pt2 : processTag env repoName emptyStr archive cutoff e2 st1 =
      (Outcome.ok (some T2), st2,
       [Event.updateManifestMeta repoName D acrarchiveinfoKey s2]) :=
    processTag_selected env repoName emptyStr archive cutoff e2 st1 st2 _ t2v
      (by simp [emptyStr]) ha hp2 ho2 h_at2
  have h_pts2 : processTags env repoName emptyStr archive cutoff [e2] st1 =
      (Outcome.ok [T2], st2,
       [Event.updateManifestMeta repoName D acrarchiveinfoKey s2]) := by
    simp only [processTags]
    rw [M_bind_ok _ _ _ _ _ _ h_pt2]
    simp [processTags, M_bind_apply, pure_apply]
  have h_pts : processTags env repoName emptyStr archive cutoff [e1, e2] st0 =
      (Outcome.ok [T1, T2], st2,
       [Event.updateManifestMeta repoName D acrarchiveinfoKey s1,
        Event.updateManifestMeta repoName D acrarchiveinfoKey s2]) := by
    have step : processTags env repoName emptyStr archive cutoff [e1, e2] =
        (processTag env repoName emptyStr archive cutoff e1 >>= fun r =>
          processTags env repoName emptyStr archive cutoff [e2] >>= fun rest =>
          pure ((match r with | some n => [n] | none => []) ++ rest)) := rfl
    rw [step]
    rw [M_bind_ok _ _ _ _ _ _ h_pt1]
    rw [M_bind_ok _ _ _ _ _ _ h_pts2]
    simp [pure_apply]
  have hrun2 : runUntagTasks env loginURL repoName [T1, T2] =
      ([Event.deleteTag repoName T1,
        Event.printLine (fmtTagLine loginURL repoName T1),
        Event.deleteTag repoName T2,
        Event.printLine (fmtTagLine loginURL repoName T2)], []) := by
    simp [runUntagTasks, runUntag, hdel1, hdel2]
  have hloop : purgeTagsLoop env loginURL repoName emptyStr archive cutoff 2
      (some { tags := some [e1, e2] }) st0 =
      (Outcome.ok (), st2,
       [Event.updateManifestMeta repoName D acrarchiveinfoKey s1,
        Event.updateManifestMeta repoName D acrarchiveinfoKey s2,
        Event.deleteTag repoName T1,
        Event.printLine (fmtTagLine loginURL repoName T1),
        Event.deleteTag repoName T2,
        Event.printLine (fmtTagLine loginURL repoName T2),
        Event.listTags repoName T2]) := by
    show purgeTagsLoop env loginURL repoName emptyStr archive cutoff (Nat.succ 1)
      (some { tags := some [e1, e2] }) st0 = _
    simp only [purgeTagsLoop]
    rw [M_bind_ok _ _ _ _ _ _ h_pts]
    rw [hrun2]
    have hgl : [e1, e2].getLast? = some e2 := rfl
    simp only [hgl, M_bind_apply, emitAll_apply, emit_apply]
    rw [hl2]
    simp [purgeTagsLoop, pure_apply]
  have hrun : PurgeTags env loginURL repoName ago emptyStr archive 2 st0 =
      (Outcome.ok (), st2,
       Event.listTags repoName emptyStr ::
       [Event.updateManifestMeta repoName D acrarchiveinfoKey s1,
        Event.updateManifestMeta repoName D acrarchiveinfoKey s2,
        Event.deleteTag repoName T1,
        Event.printLine (fmtTagLine loginURL repoName T1),
        Event.deleteTag repoName T2,
        Event.printLine (fmtTagLine loginURL repoName T2),
        Event.listTags repoName T2]) := by
    unfold PurgeTags
    simp only [hd, hrc, M_bind_apply, emit_apply, hl1]
    rw [← hcutdef]
    rw [hloop]
    rfl
  refine ⟨by rw [hrun], ?_, ?_, rfl⟩
  · rw [hrun]
    rw [hst2]
    exact lookup_setMeta st1.manifestMeta repoName D s2
  · rw [hrun]
    rw [hst2, hst1]
    rw [countKey_setMeta, countKey_setMeta, hc0]
    simp

/-- Witness for C4: the scenario at a concrete oracle whose codec maps
the seeded record to "rec1-json" and the appended record to
"rec2-json". -/
theorem claim_C4_witness :
    (PurgeTags envC4 urlC repoC agoOneDay emptyStr archC 2 emptyState).1 = Outcome.ok () ∧
    lookupMeta
      (PurgeTags envC4 urlC repoC agoOneDay emptyStr archC 2 emptyState).2.1.manifestMeta
      repoC digest15C = some s2Crec ∧
    countKey
      (PurgeTags envC4 urlC repoC agoOneDay emptyStr archC 2 emptyState).2.1.manifestMeta
      repoC digest15C = 1 ∧
    (appendRec envC4 (seedRec envC4 repoC digest15C tagAC (envC4.now + -(24 * hourNs)))
      tagV2name (envC4.now + -(24 * hourNs))).tags =
    (seedRec envC4 repoC digest15C tagAC (envC4.now + -(24 * hourNs))).tags ++
      [{ name := tagV2name, archiveTime := envC4.timeToString (envC4.now + -(24 * hourNs)) }] :=
  claim_C4_archive_append envC4 urlC repoC agoOneDay archC tagAC tagV2name digest15C ltOldC ltOldC
    s1Crec s2Crec (-(24 * hourNs)) (-(100 * hourNs)) (-(100 * hourNs)) emptyState
    (by decide) (by decide) (by decide) (by decide) (by decide) (by decide) (by decide)
    (by decide) (by decide) (by decide) (by decide) (by decide) (by decide) (by decide)
    (by decide) (by decide) (by decide) (by decide)


end AcrCli
